import Mathlib

/-!
# The closure interpreter of `ethchain/vm.go`

A shallow embedding of `Vm.RunClosure`: one iteration of its dispatch loop is the
function `Ethchain.stepClosure`, a run of the loop is `Ethchain.RunClosure` (with a bound
on the number of iterations).  `*big.Int` values are `Int`, byte slices are `List Nat`.

`vm.go` uses `Stack`, `Memory`, `Closure`, the opcode constants and `ethutil`, whose
sources are not part of the development; their definitions below are taken from the
specification and are marked as such.  Where the uses in `vm.go` decide a point (the
order of the pair of `Popn`), the definition follows these uses; what neither the
sources nor the specification describe (the pair peek, the nested frame of CALL, the
opcode numbering) is a parameter of the interpreter.
-/

namespace Ethchain

/-! ## Constants of `vm.go` -/

/-- GasStep, `big.NewInt(1)`. -/
def GasStep : Int := 1
/-- GasSha, `big.NewInt(20)`. -/
def GasSha : Int := 20
/-- GasSLoad, `big.NewInt(20)`. -/
def GasSLoad : Int := 20
/-- GasSStore, `big.NewInt(100)`. -/
def GasSStore : Int := 100
/-- GasBalance, `big.NewInt(20)`. -/
def GasBalance : Int := 20
/-- GasCreate, `big.NewInt(100)`. -/
def GasCreate : Int := 100
/-- GasCall, `big.NewInt(20)`. -/
def GasCall : Int := 20
/-- GasMemory, `big.NewInt(1)`. -/
def GasMemory : Int := 1

/-- Pow256, `ethutil.BigPow(2, 256)`. -/
def Pow256 : Int := 2 ^ 256

/-! ## Opcodes -/

/-- The opcode names that `RunClosure` and `Disassemble` switch on.  A byte value that
is none of the named constants is `oUnmapped`. -/
inductive OpCode
  | oSTOP | oADD | oSUB | oMUL | oDIV | oSDIV | oMOD | oSMOD | oEXP | oNEG
  | oLT | oGT | oEQ | oNOT
  | oAND | oOR | oXOR | oBYTE
  | oSHA3
  | oADDRESS | oBALANCE | oORIGIN | oCALLER | oCALLVALUE | oCALLDATA | oCALLDATASIZE
  | oGASPRICE
  | oPREVHASH | oCOINBASE | oTIMESTAMP | oNUMBER | oDIFFICULTY | oGASLIMIT
  | oPUSH | oPUSH20 | oPOP | oDUP | oSWAP | oMLOAD | oMSTORE | oMSTORE8
  | oSLOAD | oSSTORE | oJUMP | oJUMPI | oPC | oMSIZE
  | oCREATE | oCALL | oRETURN
  | oLOG | oSUICIDE
  | oUnmapped (b : Nat)
  deriving Repr

/-! ## Go library functions used by `vm.go` -/

/-- The method `(*big.Int).Int64`: the low 64 bits of the value, read as a signed
integer. -/
def int64Of (x : Int) : Int := (x + 2 ^ 63) % 2 ^ 64 - 2 ^ 63

/-- Big-endian bytes of a natural number, most significant first, without leading zero
(`fuel` bounds the number of bytes produced). -/
def natBytesAux : Nat → Nat → List Nat → List Nat
  | 0, _, acc => acc
  | fuel + 1, n, acc => if n = 0 then acc else natBytesAux fuel (n / 256) (n % 256 :: acc)

/-- The method `(*big.Int).Bytes`: the big-endian bytes of the absolute value. -/
def bigBytes (x : Int) : List Nat := natBytesAux x.natAbs x.natAbs []

/-- The method `(*big.Int).Exp` with modulus `m > 0`: `x ^ y mod m`, and 1 when
`y <= 0`. -/
def bigExp (x y m : Int) : Int := if y ≤ 0 then 1 else (x ^ y.toNat) % m

/-- The method `(*big.Int).Xor` on two's-complement integers. -/
def bigXor (x y : Int) : Int := Int.xor x y

/-- The method `(*big.Int).And` on two's-complement integers. -/
def bigAnd (x y : Int) : Int := Int.land x y

/-! ## `ethutil` -/

/-- Modelled from the spec: `ethutil.BigD` (ethutil is not part of the sources), the word
whose big-endian representation is the given bytes. -/
def BigD (data : List Nat) : Int := (data.foldl (fun acc b => acc * 256 + b) 0 : Nat)

/-- Modelled from the spec: `ethutil.BigToBytes(num, 256)` (ethutil is not part of the
sources), the 32-byte big-endian encoding that MSTORE writes; a value of more than 32
bytes keeps all its bytes. -/
def BigToBytes (num : Int) : List Nat :=
  let b := bigBytes num
  List.replicate (32 - b.length) 0 ++ b

/-! ## Stack -/

/-- Modelled from the spec: the type `Stack` (its source is not part of the development),
an ordered sequence of words; the head of the list is the top. -/
abbrev Stack := List Int

/-- Modelled from the spec: the maximum depth of the stack. -/
def Stack.maxDepth : Nat := 1024

/-- Modelled from the spec: `push(w)`; pushing above the cap fails. -/
def Stack.Push (st : Stack) (d : Int) : Option Stack :=
  if st.length < Stack.maxDepth then some (d :: st) else none

/-- Modelled from the spec: `pop() -> w`; popping an empty stack fails. -/
def Stack.Pop : Stack → Option (Int × Stack)
  | [] => none
  | x :: rest => some (x, rest)

/-- Modelled from the spec: `pop2()`, the pop of the top two words; it fails when fewer
than two words are on the stack.  The order of the pair is the one the uses in `vm.go`
need: the word below the top first and the top second.  After `x, y := stack.Popn()` the
SWAP case (lines 330-333) does `Push(y)` and then `Push(x)`, which exchanges the two words
only if `y` was the top; and the comment of the MSTORE case (line 337,
`val, mStart := stack.Popn()`) says that the value is at top-1 and the location at the
top. -/
def Stack.Popn : Stack → Option (Int × Int × Stack)
  | top :: next :: rest => some (next, top, rest)
  | _ => none

/-- Modelled from the spec: `peek() -> w`, the top without removing it. -/
def Stack.Peek : Stack → Option Int
  | [] => none
  | x :: _ => some x

/-! ## Memory -/

/-- Modelled from the spec: the type `Memory` (its source is not part of the
development), a byte-addressable zero-initialised region that grows when written. -/
structure Memory where
  store : List Nat
  deriving DecidableEq, Repr

/-- Modelled from the spec: `read(offset, size) -> bytes`, zero-filled past the current
extent.  A negative offset or size designates no region and the read fails. -/
def Memory.Get (m : Memory) (offset size : Int) : Option (List Nat) :=
  if offset < 0 ∨ size < 0 then none
  else some ((List.range size.toNat).map (fun i => m.store.getD (offset.toNat + i) 0))

/-- Bytes `value` written over `store` from position `offset`, the store being extended
with zero bytes up to `offset + size`; at most `size` bytes are written. -/
def writeBytes (store : List Nat) (offset size : Nat) (value : List Nat) : List Nat :=
  let len := max store.length (offset + size)
  (List.range len).map (fun i =>
    if offset ≤ i ∧ i < offset + min size value.length then value.getD (i - offset) 0
    else store.getD i 0)

/-- Modelled from the spec: `write(offset, bytes)` on the region `[offset, offset+size)`.
A negative offset or size designates no region and the write fails. -/
def Memory.Set (m : Memory) (offset size : Int) (value : List Nat) : Option Memory :=
  if offset < 0 ∨ size < 0 then none
  else some ⟨writeBytes m.store offset.toNat size.toNat value⟩

/-- Number of 32-byte words up to the highest byte touched (the high-water mark). -/
def Memory.words (m : Memory) : Nat := (m.store.length + 31) / 32

/-- Modelled from the spec: `size() -> bytes`, the highest byte touched rounded up to a
word boundary. -/
def Memory.Len (m : Memory) : Nat := 32 * m.words

/-! ## Closure -/

/-- Modelled from the spec: the word `ethutil.Big0` (ethutil is not part of the
sources). -/
def Big0 : Int := 0
/-- Modelled from the spec: the word `ethutil.Big1` (ethutil is not part of the
sources). -/
def Big1 : Int := 1
/-- Modelled from the spec: the word `ethutil.Big2` (ethutil is not part of the
sources). -/
def Big2 : Int := 2
/-- Modelled from the spec: the word `ethutil.BigInt0` (ethutil is not part of the
sources). -/
def BigInt0 : Int := 0
/-- Modelled from the spec: the word `ethutil.BigTrue` (ethutil is not part of the
sources), the word 1. -/
def BigTrue : Int := 1
/-- Modelled from the spec: the word `ethutil.BigFalse` (ethutil is not part of the
sources), the word 0. -/
def BigFalse : Int := 0

/-- Modelled from the spec: the storage view of the executing contract (its source is
not part of the development), a mapping from word to word given by the list of writes,
latest first; a key never written holds zero. -/
abbrev Storage := List (Int × Int)

/-- Modelled from the spec: `get(k)` of the storage view. -/
def Storage.get (st : Storage) (k : Int) : Int :=
  match st.find? (fun e => e.1 = k) with
  | some e => e.2
  | none => 0

/-- Modelled from the spec: `put(k, v)` of the storage view. -/
def Storage.put (st : Storage) (k v : Int) : Storage := (k, v) :: st

/-- Modelled from the spec: the type `Closure` (its source is not part of the
development): code, call data, value, remaining gas, the addresses of the executing
object and of the callee binding, and the storage view. -/
structure Closure where
  Script : List Nat
  Args : List Nat
  Value : Int
  Gas : Int
  objectAddress : List Nat
  calleeAddress : List Nat
  storage : Storage
  deriving DecidableEq, Repr

/-- Modelled from the spec: `code_at(pc) -> byte`, zero outside the code. -/
def Closure.Get (c : Closure) (pc : Int) : Nat :=
  if pc < 0 then 0 else c.Script.getD pc.toNat 0

/-- Modelled from the spec: `code_slice(pc, n) -> bytes`, the `n` bytes from `pc`, zero
outside the code. -/
def Closure.Gets (c : Closure) (pc : Int) (n : Nat) : List Nat :=
  (List.range n).map (fun i => c.Get (pc + i))

/-- Modelled from the spec: `(*ethutil.Value).IsEmpty` on a storage value (ethutil is not
part of the sources): the slot is zero. -/
def IsEmpty (val : Int) : Bool := decide (val = 0)

/-- Modelled from the spec: `Closure.GetMem`, the storage word at key `x`. -/
def Closure.GetMem (c : Closure) (x : Int) : Int := c.storage.get x

/-- Modelled from the spec: `Closure.SetMem`, the storage write. -/
def Closure.SetMem (c : Closure) (x v : Int) : Closure :=
  { c with storage := c.storage.put x v }

/-- The fields of `RuntimeVars` that `RunClosure` reads. -/
structure RuntimeVars where
  Origin : List Nat
  BlockNumber : Nat
  PrevHash : List Nat
  Coinbase : List Nat
  Time : Int
  Diff : Int
  deriving DecidableEq, Repr

/-- Modelled from the spec: the nested frame that the CALL case builds with
`vm.state.GetContract`, `NewClosure` and `Closure.Call` (none of them in the sources).
`NewClosure` receives the calling closure (line 378), and by the spec the gas that the
nested frame does not use is refunded, so the nested frame can change the gas of the
caller as well as the storage: given the storage view and the gas of the caller, the
target address, the gas and value words and the input bytes, it yields the returned
bytes, the storage view and the gas of the caller after the nested frame.  The
invocations of the debug hook made inside the nested run belong to that run; `hooked`
lists those of line 414 of the calling run. -/
abbrev NestedCall :=
  Storage → Int → Int → Int → Int → List Nat → List Nat × Storage × Int

/-- The pair peek `stack.Peekn` of line 99: it is in neither the sources nor the spec, so
it is a parameter: whatever pair it reads from the stack, or its failure. -/
abbrev PairPeek := Stack → Option (Int × Int)

/-- The interpreter `Vm`: the block context `vars`, the conversion `OpCode(val.Uint())`
of a code byte to an opcode (the opcode numbering is not part of the sources and is a
parameter), the nested call that stands for `vm.state`, and the pair peek of the
stack. -/
structure Vm where
  vars : RuntimeVars
  OpCode : Nat → OpCode
  Call : NestedCall
  Peekn : PairPeek

/-! ## The dispatch loop of `RunClosure` -/

/-- The variables of one run of `RunClosure`: the closure, `mem`, `stack`, `pc`, `step`,
and the list of `(step-1, op)` pairs handed to the debug hook so far. -/
structure Frame where
  closure : Closure
  mem : Memory
  stack : Stack
  pc : Int
  step : Int
  hooked : List (Int × OpCode)
  deriving Repr

/-- What one iteration of the loop leads to: the loop goes on, `RunClosure` returns
bytes (`closure.Return`), a stack operation fails, or the Go code fails at run time
(division by zero, a region that does not exist). -/
inductive Outcome
  | next (s : Frame)
  | returned (ret : List Nat) (s : Frame)
  | stackFault
  | fault
  deriving Repr

/-- Pop one word and go on with `k`. -/
def pop1 (s : Frame) (k : Int → Frame → Outcome) : Outcome :=
  match s.stack.Pop with
  | none => .stackFault
  | some (x, rest) => k x { s with stack := rest }

/-- Pop a pair with `Popn` and go on with `k`. -/
def pop2 (s : Frame) (k : Int → Int → Frame → Outcome) : Outcome :=
  match s.stack.Popn with
  | none => .stackFault
  | some (x, y, rest) => k x y { s with stack := rest }

/-- Push one word; the loop goes on. -/
def push (s : Frame) (d : Int) : Outcome :=
  match s.stack.Push d with
  | none => .stackFault
  | some st => .next { s with stack := st }

/-- The first `switch op` of the loop body (lines 87-119): the cost `gas` of the
instruction; `none` when `stack.Peekn` fails. -/
def gasCost (vm : Vm) (op : OpCode) (s : Frame) : Option Int :=
  match op with
  | .oSHA3 => some GasSha
  | .oSLOAD => some GasSLoad
  | .oSSTORE =>
    match vm.Peekn s.stack with
    | none => none
    | some (y, x) =>
      let val := s.closure.GetMem x
      let mult : Int :=
        if IsEmpty val ∧ (bigBytes y).length > 0 then Big2
        else if ¬ IsEmpty val ∧ (bigBytes y).length = 0 then Big0
        else Big1
      some (mult * GasSStore)
  | .oBALANCE => some GasBalance
  | .oCREATE => some GasCreate
  | .oCALL => some GasCall
  | .oMLOAD | .oMSIZE | .oMSTORE8 | .oMSTORE => some GasMemory
  | _ => some GasStep

/-- The second `switch op` of the loop body (lines 127-409), on the frame in which
`step` has been incremented.  `.next` means that the switch is left at its end. -/
def execOp (vm : Vm) (op : OpCode) (s : Frame) : Outcome :=
  match op with
  | .oLOG => .next s
  | .oSTOP => .returned [] s
  | .oADD => pop2 s fun x y s => push s ((x + y) % Pow256)
  | .oSUB => pop2 s fun x y s => push s ((x - y) % Pow256)
  | .oMUL => pop2 s fun x y s => push s ((x * y) % Pow256)
  | .oDIV => pop2 s fun x y s => if y = 0 then .fault else push s (Int.ediv x y)
  | .oSDIV => pop2 s fun x y s =>
      let x := if x > Pow256 then Pow256 - x else x
      let y := if y > Pow256 then Pow256 - y else y
      if y = 0 then .fault
      else
        let z := Int.ediv x y
        let z := if z > Pow256 then Pow256 - z else z
        push s z
  | .oMOD => pop2 s fun x y s => if y = 0 then .fault else push s (Int.emod x y)
  | .oSMOD => pop2 s fun x y s =>
      let x := if x > Pow256 then Pow256 - x else x
      let y := if y > Pow256 then Pow256 - y else y
      if y = 0 then .fault
      else
        let z := Int.emod x y
        let z := if z > Pow256 then Pow256 - z else z
        push s z
  | .oEXP => pop2 s fun x y s => push s (bigExp x y Pow256)
  | .oNEG => pop1 s fun x s => push s (Pow256 - x)
  | .oLT => pop2 s fun x y s => if x < y then push s BigTrue else push s BigFalse
  | .oGT => pop2 s fun x y s => if x > y then push s BigTrue else push s BigFalse
  | .oEQ => pop2 s fun x y s => if x = y then push s BigTrue else push s BigFalse
  | .oNOT => pop1 s fun x s => if x = BigFalse then push s BigTrue else push s BigFalse
  | .oAND => pop2 s fun x y s =>
      if x ≥ BigTrue ∧ y ≥ BigTrue then push s BigTrue else push s BigFalse
  | .oOR => pop2 s fun x y s =>
      if x ≥ BigInt0 ∨ y ≥ BigInt0 then push s BigTrue else push s BigFalse
  | .oXOR => pop2 s fun x y s => push s (bigXor x y)
  | .oBYTE => pop2 s fun val th s =>
      if th < 32 then push s (int64Of (((bigBytes val).length : Int) - 1 - int64Of th))
      else push s BigFalse
  | .oSHA3 => pop2 s fun size offset s =>
      match s.mem.Get (int64Of offset) (int64Of size) with
      | none => .fault
      | some data => push s (BigD data)
  | .oADDRESS => push s (BigD s.closure.objectAddress)
  | .oBALANCE => push s s.closure.Value
  | .oORIGIN => push s (BigD vm.vars.Origin)
  | .oCALLER => push s (BigD s.closure.calleeAddress)
  | .oCALLVALUE => push s s.closure.Value
  | .oCALLDATA => pop1 s fun offset s =>
      match s.mem.Set (int64Of offset) s.closure.Args.length s.closure.Args with
      | none => .fault
      | some m => .next { s with mem := m }
  | .oCALLDATASIZE => push s s.closure.Args.length
  | .oGASPRICE => .next s
  | .oPREVHASH => push s (BigD vm.vars.PrevHash)
  | .oCOINBASE => push s (BigD vm.vars.Coinbase)
  | .oTIMESTAMP => push s vm.vars.Time
  | .oNUMBER => push s (int64Of vm.vars.BlockNumber)
  | .oDIFFICULTY => push s vm.vars.Diff
  | .oGASLIMIT => .next s
  | .oPUSH =>
      let s := { s with pc := s.pc + Big1 }
      let data := s.closure.Gets s.pc 32
      let val := BigD data
      match push s val with
      | .next s => .next { s with pc := s.pc + 31, step := s.step + 1 }
      | o => o
  | .oPUSH20 =>
      let s := { s with pc := s.pc + Big1 }
      let data := s.closure.Gets s.pc 20
      let val := BigD data
      match push s val with
      | .next s => .next { s with pc := s.pc + 19, step := s.step + 1 }
      | o => o
  | .oPOP => pop1 s fun _ s => .next s
  | .oDUP =>
      match s.stack.Peek with
      | none => .stackFault
      | some x => push s x
  | .oSWAP => pop2 s fun x y s =>
      match push s y with
      | .next s => push s x
      | o => o
  | .oMLOAD => pop1 s fun offset s =>
      match s.mem.Get (int64Of offset) 32 with
      | none => .fault
      | some data => push s (BigD data)
  | .oMSTORE => pop2 s fun val mStart s =>
      match s.mem.Set (int64Of mStart) 32 (BigToBytes val) with
      | none => .fault
      | some m => .next { s with mem := m }
  | .oMSTORE8 => pop2 s fun val mStart s =>
      let base := bigAnd val 0xff
      match s.mem.Set (int64Of mStart) 32 (BigToBytes base) with
      | none => .fault
      | some m => .next { s with mem := m }
  | .oSLOAD => pop1 s fun loc s => push s (s.closure.GetMem loc)
  | .oSSTORE => pop2 s fun val loc s => .next { s with closure := s.closure.SetMem loc val }
  | .oJUMP => pop1 s fun x s => .next { s with pc := x }
  | .oJUMPI => pop2 s fun cond pos s =>
      if cond = BigTrue then .next { s with pc := pos } else .next s
  | .oPC => push s s.pc
  | .oMSIZE => push s s.mem.Len
  | .oCALL => pop1 s fun addr s => pop2 s fun gas value s =>
      pop2 s fun inSize inOffset s => pop2 s fun retSize retOffset s =>
      match s.mem.Get (int64Of inOffset) (int64Of inSize) with
      | none => .fault
      | some args =>
        let r := vm.Call s.closure.storage s.closure.Gas addr gas value args
        match s.mem.Set (int64Of retOffset) (int64Of retSize) r.1 with
        | none => .fault
        | some m =>
          .next { s with mem := m,
                         closure := { s.closure with storage := r.2.1, Gas := r.2.2 } }
  | .oRETURN => pop2 s fun size offset s =>
      match s.mem.Get (int64Of offset) (int64Of size) with
      | none => .fault
      | some ret => .returned ret s
  | .oSUICIDE => .next s
  | _ => .returned [] s

/-- The end of the loop body (lines 411-415), reached when the switch is left at its
end: `pc.Add(pc, ethutil.Big1)`, then the debug hook receives `(step-1, op)`. -/
def endOfBody (op : OpCode) : Outcome → Outcome
  | .next s => .next { s with pc := s.pc + Big1, hooked := s.hooked ++ [(s.step - 1, op)] }
  | o => o

/-- One iteration of the `for` loop of `RunClosure` (lines 74-416): `step++`, fetch the
opcode at `pc`, compute its cost, return empty when the closure's gas is below the cost,
otherwise run the opcode's case and the end of the body. -/
def stepClosure (vm : Vm) (s : Frame) : Outcome :=
  let s := { s with step := s.step + 1 }
  let val := s.closure.Get s.pc
  let op := vm.OpCode val
  match gasCost vm op s with
  | none => .stackFault
  | some gas =>
    if s.closure.Gas < gas then .returned [] s
    else endOfBody op (execOp vm op s)

/-- The loop of `RunClosure`, for at most `fuel` iterations; `none` when the loop is
still running after `fuel` iterations. -/
def runLoop (vm : Vm) : Nat → Frame → Option Outcome
  | 0, _ => none
  | fuel + 1, s =>
    match stepClosure vm s with
    | .next s => runLoop vm fuel s
    | o => some o

/-- The frame at the entry of the loop: empty memory, empty stack, `pc = 0`,
`step = 0`. -/
def initFrame (closure : Closure) : Frame :=
  { closure := closure, mem := ⟨[]⟩, stack := [], pc := 0, step := 0, hooked := [] }

/-- The function `Vm.RunClosure`, its loop bounded by `fuel` iterations. -/
def RunClosure (vm : Vm) (closure : Closure) (fuel : Nat) : Option Outcome :=
  runLoop vm fuel (initFrame closure)

/-! ## `Disassemble` -/

/-- Two lower-case hexadecimal digits of a byte, as `%x` prints a byte of a slice. -/
def hexByte (b : Nat) : String :=
  String.mk [Nat.digitChar (b / 16 % 16), Nat.digitChar (b % 16)]

/-- The string `fmt.Sprintf("0x%x", b)` for a byte slice `b`. -/
def sprintfHex (b : List Nat) : String :=
  "0x" ++ String.join (b.map hexByte)

/-- How a run of `Disassemble` ends: the listing `asm` is returned, a slice expression
reaches past the end of `script` (a run-time failure of the Go code, the capacity of the
script being its length), or the loop is still running when the bound on the number of
iterations is reached. -/
inductive Listing
  | done (asm : List String)
  | outOfRange
  | unfinished
  deriving DecidableEq, Repr

/-- The `for` loop of `Disassemble` (lines 421-466) from position `pc` with the listing
`asm` so far, for at most `fuel` iterations.  `toOp` is the conversion `OpCode(val)` and
`name` is what `%v` prints for an opcode (neither table is part of the sources). -/
def disasmLoop (toOp : Nat → OpCode) (name : OpCode → String) (script : List Nat) :
    Nat → Nat → List String → Listing
  | 0, _, _ => .unfinished
  | fuel + 1, pc, asm =>
    if pc ≥ script.length then .done asm
    else
      let val := script.getD pc 0
      let op := toOp val
      let asm := asm ++ [name op]
      match op with
      | .oPUSH =>
        let pc := pc + 1
        if pc + 32 > script.length then .outOfRange
        else
          let data := (script.drop pc).take 32
          let val := BigD data
          let b := if int64Of val = 0 then [0] else bigBytes val
          let asm := asm ++ [sprintfHex b]
          let pc := pc + 31
          disasmLoop toOp name script fuel (pc + 1) asm
      | .oPUSH20 =>
        let pc := pc + 1
        if pc + 20 > script.length then .outOfRange
        else
          let data := (script.drop pc).take 20
          let val := BigD data
          let b := if int64Of val = 0 then [0] else bigBytes val
          let asm := asm ++ [sprintfHex b]
          let pc := pc + 19
          disasmLoop toOp name script fuel (pc + 1) asm
      | _ => disasmLoop toOp name script fuel (pc + 1) asm

/-- The function `Disassemble`: the loop from `pc = 0` with an empty listing.  Every
iteration moves `pc` forward, so `len(script) + 1` iterations are enough. -/
def Disassemble (toOp : Nat → OpCode) (name : OpCode → String) (script : List Nat) :
    Listing :=
  disasmLoop toOp name script (script.length + 1) 0 []

/-! ## `Transfer` of `vm/environment.go` -/

/-- Modelled from the spec: the accounts behind the interface `Account` (no
implementation of it is part of the sources): every account, named by a number, holds a
balance. -/
abbrev Accounts := Nat → Int

/-- Modelled from the spec: `Account.Balance`, the balance of account `a`. -/
def Accounts.Balance (st : Accounts) (a : Nat) : Int := st a

/-- Modelled from the spec: `Account.SubBalance`, the balance of `a` lowered by
`amount`. -/
def Accounts.SubBalance (st : Accounts) (a : Nat) (amount : Int) : Accounts :=
  fun x => if x = a then st x - amount else st x

/-- Modelled from the spec: `Account.AddBalance`, the balance of `a` raised by
`amount`. -/
def Accounts.AddBalance (st : Accounts) (a : Nat) (amount : Int) : Accounts :=
  fun x => if x = a then st x + amount else st x

/-- The function `Transfer` (lines 44-54 of `environment.go`) between the accounts `src`
(the parameter `from`) and `dst` (the parameter `to`): the error returned, if any, and
the accounts afterwards. -/
def Transfer (st : Accounts) (src dst : Nat) (amount : Int) : Option String × Accounts :=
  if st.Balance src < amount then (some "Insufficient balance in account", st)
  else
    let st := st.SubBalance src amount
    let st := st.AddBalance dst amount
    (none, st)

/-! ## A concrete interpreter for the examples -/

/-- An opcode numbering, an instance of the `OpCode` parameter of `Vm` used by the
examples: byte 0 is STOP, and 0xFE is not mapped. -/
def stdOpCode (b : Nat) : OpCode :=
  match b with
  | 0x00 => .oSTOP | 0x01 => .oADD | 0x02 => .oMUL | 0x03 => .oSUB | 0x04 => .oDIV
  | 0x05 => .oSDIV | 0x06 => .oMOD | 0x07 => .oSMOD | 0x08 => .oEXP | 0x09 => .oNEG
  | 0x0a => .oLT | 0x0b => .oGT | 0x0c => .oEQ | 0x0d => .oNOT
  | 0x10 => .oAND | 0x11 => .oOR | 0x12 => .oXOR | 0x13 => .oBYTE
  | 0x20 => .oSHA3
  | 0x30 => .oADDRESS | 0x31 => .oBALANCE | 0x32 => .oORIGIN | 0x33 => .oCALLER
  | 0x34 => .oCALLVALUE | 0x35 => .oCALLDATA | 0x36 => .oCALLDATASIZE | 0x37 => .oGASPRICE
  | 0x40 => .oPREVHASH | 0x41 => .oCOINBASE | 0x42 => .oTIMESTAMP | 0x43 => .oNUMBER
  | 0x44 => .oDIFFICULTY | 0x45 => .oGASLIMIT
  | 0x50 => .oPUSH | 0x51 => .oPOP | 0x52 => .oDUP | 0x53 => .oSWAP | 0x54 => .oMLOAD
  | 0x55 => .oMSTORE | 0x56 => .oMSTORE8 | 0x57 => .oSLOAD | 0x58 => .oSSTORE
  | 0x59 => .oJUMP | 0x5a => .oJUMPI | 0x5b => .oPC | 0x5c => .oMSIZE
  | 0x60 => .oCREATE | 0x61 => .oCALL | 0x62 => .oRETURN
  | 0x70 => .oLOG | 0x7f => .oSUICIDE | 0x80 => .oPUSH20
  | b => .oUnmapped b

/-- An interpreter for the examples: empty block context, the numbering `stdOpCode`, a
nested call that returns no bytes and leaves the storage and the gas of the caller as
they are, and a pair peek that reads the word below the top and the top. -/
def stdVm : Vm :=
  { vars := { Origin := [], BlockNumber := 0, PrevHash := [], Coinbase := [], Time := 0,
              Diff := 0 },
    OpCode := stdOpCode,
    Call := fun st g _ _ _ _ => ([], st, g),
    Peekn := fun st =>
      match st with
      | top :: next :: _ => some (next, top)
      | _ => none }

/-- A closure for the examples: the given code and gas, no call data, value 0, empty
storage. -/
def stdClosure (script : List Nat) (gas : Int) : Closure :=
  { Script := script, Args := [], Value := 0, Gas := gas, objectAddress := [],
    calleeAddress := [], storage := [] }

/-- The 32 immediate bytes of a PUSH of the small value `v < 256`. -/
def imm32 (v : Nat) : List Nat := List.replicate 31 0 ++ [v]

/-- The program GASPRICE, PUSH 0, JUMP: the jump leads back to the PUSH at position 1. -/
def loopScript : List Nat := [0x37, 0x50] ++ imm32 0 ++ [0x59]

/-- A frame of a run of `loopScript` with gas 3 and empty memory. -/
def loopFrame (pc : Int) (stack : Stack) (st : Int) (hk : List (Int × OpCode)) : Frame :=
  { closure := stdClosure loopScript 3, mem := ⟨[]⟩, stack := stack, pc := pc, step := st,
    hooked := hk }

/-- The frame at the ADD of the one-byte program ADD, with gas 10 and the words 1 and 2
on the stack. -/
def addFrame : Frame :=
  { closure := stdClosure [0x01] 10, mem := ⟨[]⟩, stack := [1, 2], pc := 0, step := 0,
    hooked := [] }

/-- The frame at the MSIZE of the one-byte program MSIZE, with gas 10, empty stack and
empty memory. -/
def msizeFrame : Frame := initFrame (stdClosure [0x5c] 10)

/-- The frame at the SSTORE of the one-byte program SSTORE, with gas 500, fresh storage,
the key 7 on top of the stack and the value 5 below it. -/
def sstoreFrame : Frame :=
  { closure := stdClosure [0x58] 500, mem := ⟨[]⟩, stack := [7, 5], pc := 0, step := 0,
    hooked := [] }

/-- The frame at the SUB of the one-byte program SUB, with gas 10, the word 0 on top of
the stack and the word 1 below it. -/
def subFrame : Frame :=
  { closure := stdClosure [0x03] 10, mem := ⟨[]⟩, stack := [0, 1], pc := 0, step := 0,
    hooked := [] }

/-- The frame at the EXP of the one-byte program EXP, with gas 10, the exponent 0 on top
of the stack and the base 7 below it. -/
def expFrame : Frame :=
  { closure := stdClosure [0x08] 10, mem := ⟨[]⟩, stack := [0, 7], pc := 0, step := 0,
    hooked := [] }

/-- The frame at position 0 of the program `script` before any instruction has run, with
gas `gas`, the words `stack` on the stack and the bytes `mem` in memory. -/
def frameAt (script : List Nat) (gas : Int) (stack : Stack) (mem : List Nat) : Frame :=
  { closure := stdClosure script gas, mem := ⟨mem⟩, stack := stack, pc := 0, step := 0,
    hooked := [] }

/-- The frame one instruction `op` after `frameAt`, for an instruction that leaves the
words `stack` on the stack and moves `pc` to `pc`: `step` is 1 and the debug hook has
been told `(0, op)`. -/
def frameAfter (script : List Nat) (gas : Int) (stack : Stack) (mem : List Nat) (pc : Int)
    (op : OpCode) : Frame :=
  { closure := stdClosure script gas, mem := ⟨mem⟩, stack := stack, pc := pc, step := 1,
    hooked := [(0, op)] }

/-- The program PUSH 5, PUSH 0, DIV: it divides 5 by the 0 on top of the stack. -/
def divZeroScript : List Nat := [0x50] ++ imm32 5 ++ [0x50] ++ imm32 0 ++ [0x04]

/-- The program PUSH 5, PUSH 0, MOD: it reduces 5 modulo the 0 on top of the stack. -/
def modZeroScript : List Nat := [0x50] ++ imm32 5 ++ [0x50] ++ imm32 0 ++ [0x06]

/-- The program JUMP, STOP, GASPRICE, MSIZE: position 2 holds GASPRICE and position 3
holds MSIZE. -/
def jumpScript : List Nat := [0x59, 0x00, 0x37, 0x5c]

/-- The program PUSH 3: the opcode PUSH followed by the 32 immediate bytes of the
word 3. -/
def pushScript : List Nat := [0x50] ++ imm32 3

/-- Modelled from the spec: what `%v` prints for an opcode (the name table is not part of
the sources): the name the spec gives the opcode, and `Unknown` for an unmapped byte. -/
def opName : OpCode → String
  | .oSTOP => "STOP" | .oADD => "ADD" | .oSUB => "SUB" | .oMUL => "MUL" | .oDIV => "DIV"
  | .oSDIV => "SDIV" | .oMOD => "MOD" | .oSMOD => "SMOD" | .oEXP => "EXP" | .oNEG => "NEG"
  | .oLT => "LT" | .oGT => "GT" | .oEQ => "EQ" | .oNOT => "NOT"
  | .oAND => "AND" | .oOR => "OR" | .oXOR => "XOR" | .oBYTE => "BYTE"
  | .oSHA3 => "SHA3"
  | .oADDRESS => "ADDRESS" | .oBALANCE => "BALANCE" | .oORIGIN => "ORIGIN"
  | .oCALLER => "CALLER" | .oCALLVALUE => "CALLVALUE" | .oCALLDATA => "CALLDATA"
  | .oCALLDATASIZE => "CALLDATASIZE" | .oGASPRICE => "GASPRICE"
  | .oPREVHASH => "PREVHASH" | .oCOINBASE => "COINBASE" | .oTIMESTAMP => "TIMESTAMP"
  | .oNUMBER => "NUMBER" | .oDIFFICULTY => "DIFFICULTY" | .oGASLIMIT => "GASLIMIT"
  | .oPUSH => "PUSH" | .oPUSH20 => "PUSH20" | .oPOP => "POP" | .oDUP => "DUP"
  | .oSWAP => "SWAP" | .oMLOAD => "MLOAD" | .oMSTORE => "MSTORE" | .oMSTORE8 => "MSTORE8"
  | .oSLOAD => "SLOAD" | .oSSTORE => "SSTORE" | .oJUMP => "JUMP" | .oJUMPI => "JUMPI"
  | .oPC => "PC" | .oMSIZE => "MSIZE"
  | .oCREATE => "CREATE" | .oCALL => "CALL" | .oRETURN => "RETURN"
  | .oLOG => "LOG" | .oSUICIDE => "SUICIDE"
  | .oUnmapped _ => "Unknown"

/-- The script PUSH with the 32 immediate bytes of the word `2^64`: 23 zero bytes, the
byte 1, and 8 zero bytes. -/
def push2p64Script : List Nat := [0x50] ++ List.replicate 23 0 ++ [1] ++ List.replicate 8 0

/-- The program PUSH `a`, PUSH `b`, ADD, PUSH 0, MSTORE, PUSH 32, PUSH 0, RETURN. -/
def sumScript (a b : Int) : List Nat :=
  [0x50] ++ BigToBytes a ++ [0x50] ++ BigToBytes b ++ [0x01] ++ [0x50] ++ imm32 0 ++
    [0x55] ++ [0x50] ++ imm32 32 ++ [0x50] ++ imm32 0 ++ [0x62]

/-- Accounts for the examples: account 1 holds 10, account 2 holds 5, every other
account holds 0. -/
def stdAccounts : Accounts := fun a => if a = 1 then 10 else if a = 2 then 5 else 0

/-! ## Predicates used in the statements -/

/-- The closure's gas in the frame that an outcome carries is `g` (an outcome without a
frame satisfies it). -/
def Outcome.gasIs (g : Int) : Outcome → Prop
  | .next s => s.closure.Gas = g
  | .returned _ s => s.closure.Gas = g
  | .stackFault => True
  | .fault => True

/-- The closure's gas in the frame that an outcome carries lies between 0 and `G` (an
outcome without a frame satisfies it). -/
def Outcome.gasWithin (G : Int) : Outcome → Prop
  | .next s => 0 ≤ s.closure.Gas ∧ s.closure.Gas ≤ G
  | .returned _ s => 0 ≤ s.closure.Gas ∧ s.closure.Gas ≤ G
  | .stackFault => True
  | .fault => True

/-- The nested call does not raise the gas of the caller and leaves it non-negative:
whenever the caller holds gas `g >= 0` before the nested frame, it holds gas between 0
and `g` after it (by the spec the caller is charged for the nested frame and the gas
that the nested frame does not use is refunded). -/
def NestedCall.withinGas (call : NestedCall) : Prop :=
  ∀ (st : Storage) (g addr gas value : Int) (args : List Nat), 0 ≤ g →
    0 ≤ (call st g addr gas value args).2.2 ∧ (call st g addr gas value args).2.2 ≤ g

/-- The opcode is PUSH or PUSH20, the two cases of the switch with a `step++` of their
own. -/
def isPush : OpCode → Bool
  | .oPUSH => true
  | .oPUSH20 => true
  | _ => false

/-- Number of PUSH and PUSH20 among the opcodes handed to the debug hook. -/
def pushCount (l : List (Int × OpCode)) : Nat := l.countP (fun e => isPush e.2)

/-- The frame after `n` complete iterations of the loop of `RunClosure` from the frame
`s`; `none` when the loop is left (return or failure) within the first `n` iterations. -/
def stepsFrom (vm : Vm) : Nat → Frame → Option Frame
  | 0, s => some s
  | n + 1, s =>
    match stepClosure vm s with
    | .next s' => stepsFrom vm n s'
    | _ => none

/-- In the frame that an outcome `next` carries, `step` is `st` and the list of hook
invocations is `hk` (any other outcome satisfies it). -/
def Outcome.stepIs (st : Int) (hk : List (Int × OpCode)) : Outcome → Prop
  | .next s => s.step = st ∧ s.hooked = hk
  | _ => True

/-- The frame `s` has the closure `c`, the memory `m`, the stack `stk` and `pc = p`
(nothing is said of `step` and of the hook invocations). -/
def Frame.isAt (s : Frame) (c : Closure) (m : Memory) (stk : Stack) (p : Int) : Prop :=
  s.closure = c ∧ s.mem = m ∧ s.stack = stk ∧ s.pc = p

/-! ## The instructions of a script -/

/-- Number of immediate bytes that follow an opcode in the code: 32 after PUSH, 20 after
PUSH20, none after any other opcode. -/
def immLen : OpCode → Nat
  | .oPUSH => 32
  | .oPUSH20 => 20
  | _ => 0

/-- The instructions of `script` from position `pc` on, at most `fuel` of them, each given
by its position and its opcode: an instruction is an opcode byte together with the
immediate bytes that follow it. -/
def instructionsFrom (toOp : Nat → OpCode) (script : List Nat) :
    Nat → Nat → List (Nat × OpCode)
  | 0, _ => []
  | fuel + 1, pc =>
    if pc ≥ script.length then []
    else
      (pc, toOp (script.getD pc 0)) ::
        instructionsFrom toOp script fuel (pc + 1 + immLen (toOp (script.getD pc 0)))

/-- The instructions of `script` in program order (an instruction has at least one byte,
so there are at most `len(script)` of them). -/
def instructions (toOp : Nat → OpCode) (script : List Nat) : List (Nat × OpCode) :=
  instructionsFrom toOp script script.length 0

/-- The literal of the listing for the `n` immediate bytes at position `pc` (lines 436-446
and 451-460). -/
def literalAt (script : List Nat) (pc n : Nat) : String :=
  sprintfHex (if int64Of (BigD ((script.drop pc).take n)) = 0 then [0]
    else bigBytes (BigD ((script.drop pc).take n)))

/-- The entries of the listing for one instruction: the printed name of its opcode, and
after PUSH and PUSH20 the literal of its immediate. -/
def entriesOf (name : OpCode → String) (script : List Nat) (e : Nat × OpCode) :
    List String :=
  if isPush e.2 then [name e.2, literalAt script (e.1 + 1) (immLen e.2)] else [name e.2]

/-- The script PUSH 3, ADD: two instructions, 34 bytes. -/
def pushAddScript : List Nat := pushScript ++ [0x01]

/-! ## Auxiliary facts -/

theorem stepClosure_eq (vm : Vm) (s : Frame) (op : OpCode) (c : Int)
    (hop : vm.OpCode (s.closure.Get s.pc) = op)
    (hc : gasCost vm op { s with step := s.step + 1 } = some c)
    (hg : c ≤ s.closure.Gas) :
    stepClosure vm s = endOfBody op (execOp vm op { s with step := s.step + 1 }) := by
  unfold stepClosure
  simp only [hop, hc, not_lt.mpr hg, if_false]

theorem push_ok (s : Frame) (d : Int) (stk : Stack) (hs : s.stack = stk)
    (h : stk.length < Stack.maxDepth) :
    push s d = .next { s with stack := d :: stk } := by
  subst hs
  unfold push Stack.Push
  rw [if_pos h]

theorem push_eq (s : Frame) (d : Int) :
    push s d = .stackFault ∨ ∃ st, push s d = .next { s with stack := st } := by
  unfold push
  cases s.stack.Push d with
  | none => exact Or.inl rfl
  | some st => exact Or.inr ⟨st, rfl⟩

theorem pop2_ok (s : Frame) (k : Int → Int → Frame → Outcome) (x y : Int) (rest : Stack)
    (hs : s.stack = y :: x :: rest) : pop2 s k = k x y { s with stack := rest } := by
  unfold pop2
  rw [hs]
  rfl

theorem pop1_ok (s : Frame) (k : Int → Frame → Outcome) (x : Int) (rest : Stack)
    (hs : s.stack = x :: rest) : pop1 s k = k x { s with stack := rest } := by
  unfold pop1
  rw [hs]
  rfl

/-! ### The closure's gas is changed by no case of the loop but CALL -/

theorem next_gasIs (s : Frame) (g : Int) (h : s.closure.Gas = g) :
    (Outcome.next s).gasIs g := h

theorem returned_gasIs (ret : List Nat) (s : Frame) (g : Int) (h : s.closure.Gas = g) :
    (Outcome.returned ret s).gasIs g := h

theorem push_gasIs (s : Frame) (d : Int) (g : Int) (h : s.closure.Gas = g) :
    (push s d).gasIs g := by
  unfold push
  cases s.stack.Push d with
  | none => exact True.intro
  | some st => exact h

theorem pop1_gasIs (s : Frame) (k : Int → Frame → Outcome) (g : Int)
    (hk : ∀ x s', s'.closure.Gas = s.closure.Gas → (k x s').gasIs g) :
    (pop1 s k).gasIs g := by
  unfold pop1
  cases s.stack.Pop with
  | none => exact True.intro
  | some p => exact hk _ _ rfl

theorem pop2_gasIs (s : Frame) (k : Int → Int → Frame → Outcome) (g : Int)
    (hk : ∀ x y s', s'.closure.Gas = s.closure.Gas → (k x y s').gasIs g) :
    (pop2 s k).gasIs g := by
  unfold pop2
  cases s.stack.Popn with
  | none => exact True.intro
  | some p => exact hk _ _ _ rfl

theorem ite_gasIs {c : Prop} [Decidable c] {a b : Outcome} {g : Int}
    (ha : a.gasIs g) (hb : b.gasIs g) : (if c then a else b).gasIs g := by
  split <;> assumption

theorem execOp_gasIs (vm : Vm) (op : OpCode) (s : Frame) (hop : op ≠ .oCALL) :
    (execOp vm op s).gasIs s.closure.Gas := by
  cases op <;> unfold execOp <;> dsimp only
  case oPUSH =>
    rcases push_eq { s with pc := s.pc + Big1 } (BigD (s.closure.Gets (s.pc + Big1) 32))
      with h | ⟨st, h⟩
    · rw [h]; exact True.intro
    · rw [h]; exact rfl
  case oPUSH20 =>
    rcases push_eq { s with pc := s.pc + Big1 } (BigD (s.closure.Gets (s.pc + Big1) 20))
      with h | ⟨st, h⟩
    · rw [h]; exact True.intro
    · rw [h]; exact rfl
  case oDUP =>
    split
    · exact True.intro
    · exact push_gasIs _ _ _ rfl
  case oSWAP =>
    apply pop2_gasIs; intro x y s' hs'; dsimp only
    rcases push_eq s' y with h | ⟨st, h⟩
    · rw [h]; exact True.intro
    · rw [h]; exact push_gasIs _ _ _ hs'
  case oCALL => exact absurd rfl hop
  all_goals first
    | exact next_gasIs _ _ rfl
    | exact returned_gasIs _ _ _ rfl
    | exact push_gasIs _ _ _ rfl
    | (apply pop2_gasIs; intro x y s' hs'; dsimp only
       first
         | exact push_gasIs _ _ _ hs'
         | exact next_gasIs _ _ hs'
         | (apply ite_gasIs <;>
              first | exact push_gasIs _ _ _ hs' | exact next_gasIs _ _ hs' | exact True.intro)
         | (split <;>
              first
                | exact push_gasIs _ _ _ hs' | exact next_gasIs _ _ hs'
                | exact returned_gasIs _ _ _ hs' | exact True.intro))
    | (apply pop1_gasIs; intro x s' hs'; dsimp only
       first
         | exact push_gasIs _ _ _ hs'
         | exact next_gasIs _ _ hs'
         | (apply ite_gasIs <;> exact push_gasIs _ _ _ hs')
         | (split <;>
              first | exact push_gasIs _ _ _ hs' | exact next_gasIs _ _ hs' | exact True.intro))

theorem gasIs_gasWithin (o : Outcome) (g G : Int) (h : o.gasIs g) (h0 : 0 ≤ g)
    (hG : g ≤ G) : o.gasWithin G := by
  cases o with
  | next s => exact ⟨by rw [show s.closure.Gas = g from h]; exact h0,
      by rw [show s.closure.Gas = g from h]; exact hG⟩
  | returned r s => exact ⟨by rw [show s.closure.Gas = g from h]; exact h0,
      by rw [show s.closure.Gas = g from h]; exact hG⟩
  | stackFault => exact True.intro
  | fault => exact True.intro

theorem pop1_gasWithin (s : Frame) (k : Int → Frame → Outcome) (G : Int)
    (hk : ∀ x s', s'.closure = s.closure → (k x s').gasWithin G) :
    (pop1 s k).gasWithin G := by
  unfold pop1
  cases s.stack.Pop with
  | none => exact True.intro
  | some p => exact hk _ _ rfl

theorem pop2_gasWithin (s : Frame) (k : Int → Int → Frame → Outcome) (G : Int)
    (hk : ∀ x y s', s'.closure = s.closure → (k x y s').gasWithin G) :
    (pop2 s k).gasWithin G := by
  unfold pop2
  cases s.stack.Popn with
  | none => exact True.intro
  | some p => exact hk _ _ _ rfl

theorem execOp_call_gasWithin (vm : Vm) (s : Frame) (G : Int) (hcall : vm.Call.withinGas)
    (h0 : 0 ≤ s.closure.Gas) (hG : s.closure.Gas ≤ G) :
    (execOp vm .oCALL s).gasWithin G := by
  unfold execOp
  dsimp only
  apply pop1_gasWithin; intro addr s1 h1
  apply pop2_gasWithin; intro gas value s2 h2
  apply pop2_gasWithin; intro inSize inOffset s3 h3
  apply pop2_gasWithin; intro retSize retOffset s4 h4
  have h : s4.closure = s.closure := by rw [h4, h3, h2, h1]
  split
  · exact True.intro
  · split
    · exact True.intro
    · rw [h]
      have := hcall s.closure.storage s.closure.Gas addr gas value ‹List Nat› h0
      exact ⟨this.1, le_trans this.2 hG⟩

theorem endOfBody_gasWithin (op : OpCode) (o : Outcome) (G : Int) (h : o.gasWithin G) :
    (endOfBody op o).gasWithin G := by
  cases o <;> exact h

theorem stepClosure_gasWithin (vm : Vm) (s : Frame) (G : Int) (hcall : vm.Call.withinGas)
    (h0 : 0 ≤ s.closure.Gas) (hG : s.closure.Gas ≤ G) :
    (stepClosure vm s).gasWithin G := by
  unfold stepClosure
  dsimp only
  split
  · exact True.intro
  · split
    · exact ⟨h0, hG⟩
    · apply endOfBody_gasWithin
      by_cases hop : vm.OpCode (s.closure.Get s.pc) = .oCALL
      · rw [hop]
        exact execOp_call_gasWithin vm { s with step := s.step + 1 } G hcall h0 hG
      · exact gasIs_gasWithin _ _ G
          (execOp_gasIs vm _ { s with step := s.step + 1 } hop) h0 hG

theorem runLoop_gasWithin (vm : Vm) (G : Int) (hcall : vm.Call.withinGas) (fuel : Nat) :
    ∀ (s : Frame) (o : Outcome), 0 ≤ s.closure.Gas → s.closure.Gas ≤ G →
      runLoop vm fuel s = some o → o.gasWithin G := by
  induction fuel with
  | zero => intro s o _ _ h; simp [runLoop] at h
  | succ n ih =>
    intro s o h0 hG h
    unfold runLoop at h
    have hs := stepClosure_gasWithin vm s G hcall h0 hG
    cases hstep : stepClosure vm s with
    | next s' =>
      rw [hstep] at h hs
      exact ih s' o hs.1 hs.2 h
    | returned r s' =>
      rw [hstep] at h hs
      cases h
      exact hs
    | stackFault =>
      rw [hstep] at h; cases h; exact True.intro
    | fault =>
      rw [hstep] at h; cases h; exact True.intro

/-! ### The run of `loopScript` -/

theorem loop_step_gasprice (st : Int) (hk : List (Int × OpCode)) :
    stepClosure stdVm (loopFrame 0 [] st hk) =
      .next (loopFrame 1 [] (st + 1) (hk ++ [(st + 1 - 1, .oGASPRICE)])) := rfl

set_option maxRecDepth 8000 in
theorem loop_immediate : BigD ((stdClosure loopScript 3).Gets (1 + Big1) 32) = 0 := by rfl

theorem loop_step_push (st : Int) (hk : List (Int × OpCode)) :
    stepClosure stdVm (loopFrame 1 [] st hk) =
      .next (loopFrame 34 [0] (st + 1 + 1) (hk ++ [(st + 1 + 1 - 1, .oPUSH)])) := by
  rw [stepClosure_eq stdVm (loopFrame 1 [] st hk) .oPUSH 1 rfl rfl
    (show (1 : Int) ≤ 3 by decide)]
  unfold execOp
  dsimp only
  rw [push_ok _ _ [] rfl (by decide)]
  dsimp only [loopFrame]
  rw [loop_immediate]
  rfl

theorem loop_step_jump (st : Int) (hk : List (Int × OpCode)) :
    stepClosure stdVm (loopFrame 34 [0] st hk) =
      .next (loopFrame 1 [] (st + 1) (hk ++ [(st + 1 - 1, .oJUMP)])) := rfl

theorem loop_runs_on (fuel : Nat) : ∀ (st : Int) (hk : List (Int × OpCode)),
    runLoop stdVm fuel (loopFrame 1 [] st hk) = none ∧
    runLoop stdVm fuel (loopFrame 34 [0] st hk) = none := by
  induction fuel with
  | zero => intro st hk; exact ⟨rfl, rfl⟩
  | succ n ih =>
    intro st hk
    constructor
    · rw [runLoop, loop_step_push]; exact (ih _ _).2
    · rw [runLoop, loop_step_jump]; exact (ih _ _).1

theorem natBytesAux_length_ge (fuel n : Nat) (acc : List Nat) :
    acc.length ≤ (natBytesAux fuel n acc).length := by
  induction fuel generalizing n acc with
  | zero => exact Nat.le_refl _
  | succ f ih =>
    unfold natBytesAux
    split
    · exact Nat.le_refl _
    · exact Nat.le_trans (Nat.le_succ _) (ih (n / 256) (n % 256 :: acc))

theorem bigBytes_length_eq_zero (y : Int) : (bigBytes y).length = 0 ↔ y = 0 := by
  unfold bigBytes
  constructor
  · intro h
    cases hn : y.natAbs with
    | zero => exact Int.natAbs_eq_zero.mp hn
    | succ m =>
      rw [hn] at h
      unfold natBytesAux at h
      rw [if_neg (Nat.succ_ne_zero m)] at h
      have := natBytesAux_length_ge m ((m + 1) / 256) [(m + 1) % 256]
      rw [h] at this
      exact absurd this (by simp)
  · intro h
    subst h
    rfl

/-! ## Gas metering -/

/-- C1: when the closure's gas is strictly below the cost computed for the opcode at
`pc`, the iteration makes `RunClosure` return at once with empty bytes, and the opcode's
case is not run: stack, memory and closure (so its storage) are those before the
instruction. -/
theorem C1_out_of_gas_halts (vm : Vm) (s : Frame) (c : Int) (fuel : Nat)
    (hcost : gasCost vm (vm.OpCode (s.closure.Get s.pc)) { s with step := s.step + 1 } = some c)
    (hgas : s.closure.Gas < c) :
    ∃ s', stepClosure vm s = .returned [] s' ∧
      runLoop vm (fuel + 1) s = some (.returned [] s') ∧
      s'.stack = s.stack ∧ s'.mem = s.mem ∧ s'.closure = s.closure := by
  have h : stepClosure vm s = .returned [] { s with step := s.step + 1 } := by
    unfold stepClosure
    simp only [hcost, hgas, if_true]
  refine ⟨{ s with step := s.step + 1 }, h, ?_, rfl, rfl, rfl⟩
  unfold runLoop
  rw [h]

/-- C1 at the one-byte program SHA3 (cost 20) with gas 19. -/
theorem C1_out_of_gas_halts_witness :
    (initFrame (stdClosure [0x20] 19)).closure.Gas < 20 ∧
    ∃ s', stepClosure stdVm (initFrame (stdClosure [0x20] 19)) = .returned [] s' ∧
      runLoop stdVm (0 + 1) (initFrame (stdClosure [0x20] 19)) = some (.returned [] s') ∧
      s'.stack = [] ∧ s'.mem = ⟨[]⟩ ∧ s'.closure = stdClosure [0x20] 19 :=
  ⟨by decide, C1_out_of_gas_halts stdVm (initFrame (stdClosure [0x20] 19)) 20 0 rfl (by decide)⟩

set_option maxRecDepth 8000 in
/-- C2 (the code at the failing input): the ADD of `addFrame` has cost 1 and the
closure holds gas 10; after the instruction the closure still holds gas 10, not 9. -/
theorem C2_gas_not_lowered :
    gasCost stdVm (stdVm.OpCode (addFrame.closure.Get addFrame.pc))
        { addFrame with step := addFrame.step + 1 } = some 1 ∧
    addFrame.closure.Gas = 10 ∧
    stepClosure stdVm addFrame =
      .next { closure := stdClosure [0x01] 10, mem := ⟨[]⟩, stack := [3], pc := 1, step := 1,
              hooked := [(0, .oADD)] } :=
  ⟨rfl, rfl, by rfl⟩

/-- C3 (the code at the failing input): with gas 3 the program GASPRICE, PUSH 0, JUMP,
all of whose instructions cost 1, is still running after any number of iterations of the
loop: `RunClosure` does not return. -/
theorem C3_loop_never_halts (fuel : Nat) :
    RunClosure stdVm (stdClosure loopScript 3) fuel = none := by
  cases fuel with
  | zero => rfl
  | succ n =>
    show runLoop stdVm (n + 1) (loopFrame 0 [] 0 []) = none
    rw [runLoop, loop_step_gasprice]
    exact (loop_runs_on n _ _).1

/-- No case of the loop writes the closure's gas; the one place where it can change is
the nested frame of a CALL, which is not part of the sources.  For an interpreter whose
nested call leaves the gas of the caller between 0 and what it was: when `RunClosure`,
started with gas `G >= 0`, returns, the closure's remaining gas `r` satisfies
`0 <= r <= G`. -/
theorem gas_within_budget (vm : Vm) (closure : Closure) (fuel : Nat) (ret : List Nat)
    (s' : Frame) (hcall : vm.Call.withinGas) (hG : 0 ≤ closure.Gas)
    (h : RunClosure vm closure fuel = some (.returned ret s')) :
    0 ≤ s'.closure.Gas ∧ s'.closure.Gas ≤ closure.Gas :=
  runLoop_gasWithin vm closure.Gas hcall fuel (initFrame closure) _ hG (le_refl _) h

/-- The nested call of `stdVm` leaves the gas of the caller as it is, and the one-byte
program STOP with gas 5 returns with gas 5. -/
theorem gas_within_budget_example :
    stdVm.Call.withinGas ∧
    RunClosure stdVm (stdClosure [0x00] 5) 1 =
      some (.returned [] { initFrame (stdClosure [0x00] 5) with step := 1 }) ∧
    ({ initFrame (stdClosure [0x00] 5) with step := 1 } : Frame).closure.Gas = 5 :=
  ⟨fun _ _ _ _ _ _ h => ⟨h, le_refl _⟩, rfl, rfl⟩

/-- C5: the cost computed before an instruction is run is 20 for SHA3, SLOAD, BALANCE and
CALL, 100 for CREATE, and 1 (STEP) for every opcode other than SHA3, SLOAD, SSTORE,
BALANCE, CREATE, CALL, MLOAD, MSTORE, MSTORE8 and MSIZE, whatever the frame (stack,
memory, storage). -/
theorem C5_base_costs (vm : Vm) (s : Frame) (op : OpCode)
    (hop : op ∉ [OpCode.oSHA3, .oSLOAD, .oSSTORE, .oBALANCE, .oCREATE, .oCALL, .oMLOAD,
      .oMSTORE, .oMSTORE8, .oMSIZE]) :
    gasCost vm .oSHA3 s = some 20 ∧ gasCost vm .oSLOAD s = some 20 ∧
    gasCost vm .oBALANCE s = some 20 ∧ gasCost vm .oCREATE s = some 100 ∧
    gasCost vm .oCALL s = some 20 ∧ gasCost vm op s = some 1 := by
  refine ⟨rfl, rfl, rfl, rfl, rfl, ?_⟩
  cases op <;> first | rfl | (exfalso; revert hop; simp)

/-- C5 at the opcode ADD, on the frame `addFrame`. -/
theorem C5_base_costs_witness :
    OpCode.oADD ∉ [OpCode.oSHA3, .oSLOAD, .oSSTORE, .oBALANCE, .oCREATE, .oCALL, .oMLOAD,
      .oMSTORE, .oMSTORE8, .oMSIZE] ∧
    gasCost stdVm .oSHA3 addFrame = some 20 ∧ gasCost stdVm .oSLOAD addFrame = some 20 ∧
    gasCost stdVm .oBALANCE addFrame = some 20 ∧ gasCost stdVm .oCREATE addFrame = some 100 ∧
    gasCost stdVm .oCALL addFrame = some 20 ∧ gasCost stdVm .oADD addFrame = some 1 :=
  ⟨by simp, C5_base_costs stdVm addFrame .oADD (by simp)⟩

/-- The cost of an SSTORE in terms of the pair `(y, x)` that the pair peek of line 99
reads from the stack: with `prev` the word stored at `x`, the cost is 200 when `prev = 0`
and `y != 0`, 0 when `prev != 0` and `y = 0`, and 100 otherwise. -/
theorem sstore_cost_of_pair (vm : Vm) (s : Frame) (y x : Int)
    (hpk : vm.Peekn s.stack = some (y, x)) :
    gasCost vm .oSSTORE s =
      some (if s.closure.storage.get x = 0 ∧ y ≠ 0 then 200
            else if s.closure.storage.get x ≠ 0 ∧ y = 0 then 0 else 100) := by
  unfold gasCost
  rw [hpk]
  simp only [Closure.GetMem, IsEmpty, decide_eq_true_eq]
  have hv : (bigBytes y).length > 0 ↔ y ≠ 0 := by
    rw [gt_iff_lt, Nat.pos_iff_ne_zero, ne_eq, bigBytes_length_eq_zero]
  have hz := bigBytes_length_eq_zero y
  simp only [hv, hz]
  by_cases h1 : s.closure.storage.get x = 0 <;> by_cases h2 : y = 0 <;>
    simp [h1, h2, Big2, Big0, Big1, GasSStore]

/-- The SSTORE case (lines 350-351) writes the word below the top of the stack at the key
on top of the stack, which then holds that word. -/
theorem sstore_writes (vm : Vm) (s : Frame) (val loc : Int) (rest : Stack)
    (hs : s.stack = loc :: val :: rest) :
    execOp vm .oSSTORE s =
      .next { s with stack := rest,
                     closure := { s.closure with
                                    storage := s.closure.storage.put loc val } } ∧
    (s.closure.storage.put loc val).get loc = val := by
  refine ⟨?_, ?_⟩
  · unfold execOp
    dsimp only
    rw [pop2_ok s _ val loc rest hs]
    rfl
  · simp [Storage.put, Storage.get]

/-- On `sstoreFrame`, with the pair peek of `stdVm`: the pair read is the value 5 and the
key 7, the cost is 200, and the SSTORE writes 5 at 7. -/
theorem sstore_example :
    stdVm.Peekn sstoreFrame.stack = some (5, 7) ∧
    gasCost stdVm .oSSTORE sstoreFrame = some 200 ∧
    execOp stdVm .oSSTORE sstoreFrame =
      .next { sstoreFrame with
                stack := [],
                closure := { sstoreFrame.closure with
                               storage := sstoreFrame.closure.storage.put 7 5 } } :=
  ⟨rfl, rfl, rfl⟩

/-- C7 (as stated, refuted): the MSIZE of `msizeFrame` has cost 1, and the instruction
leaves the memory as it is, so that the high-water mark rises by 0 words. -/
theorem C7_msize_costs_one :
    gasCost stdVm (stdVm.OpCode (msizeFrame.closure.Get msizeFrame.pc))
        { msizeFrame with step := msizeFrame.step + 1 } = some 1 ∧
    stepClosure stdVm msizeFrame =
      .next { closure := stdClosure [0x5c] 10, mem := ⟨[]⟩, stack := [0], pc := 1, step := 1,
              hooked := [(0, .oMSIZE)] } ∧
    (⟨[]⟩ : Memory).words - msizeFrame.mem.words = 0 :=
  ⟨rfl, rfl, rfl⟩

/-- C7 (amended): for each of MLOAD, MSTORE, MSTORE8 and MSIZE the cost computed is the
constant `GasMemory` = 1, whatever the frame, hence whatever the growth of memory. -/
theorem C7_memory_cost_flat (vm : Vm) (s : Frame) :
    gasCost vm .oMLOAD s = some GasMemory ∧ gasCost vm .oMSTORE s = some GasMemory ∧
    gasCost vm .oMSTORE8 s = some GasMemory ∧ gasCost vm .oMSIZE s = some GasMemory ∧
    GasMemory = 1 :=
  ⟨rfl, rfl, rfl, rfl, rfl⟩

/-! ## Modular arithmetic -/

theorem rest_within_cap (s : Frame) (x y : Int) (rest : Stack)
    (hs : s.stack = x :: y :: rest) (hd : s.stack.length ≤ Stack.maxDepth) :
    rest.length < Stack.maxDepth := by
  rw [hs] at hd
  simp only [List.length_cons] at hd
  omega

theorem pow256_pos : (0 : Int) < 2 ^ 256 := by positivity

/-- C8: on a stack (within its cap) whose two top entries are `x` and `y`, the ADD case
replaces them by `(x + y) mod 2^256` and the MUL case by `(x * y) mod 2^256`, both in
`[0, 2^256)`. -/
theorem C8_add_mul (vm : Vm) (s : Frame) (x y : Int) (rest : Stack)
    (hs : s.stack = y :: x :: rest) (hd : s.stack.length ≤ Stack.maxDepth) :
    execOp vm .oADD s = .next { s with stack := (x + y) % 2 ^ 256 :: rest } ∧
    execOp vm .oMUL s = .next { s with stack := (x * y) % 2 ^ 256 :: rest } ∧
    0 ≤ (x + y) % 2 ^ 256 ∧ (x + y) % 2 ^ 256 < 2 ^ 256 ∧
    0 ≤ (x * y) % 2 ^ 256 ∧ (x * y) % 2 ^ 256 < 2 ^ 256 := by
  have hrest := rest_within_cap s y x rest hs hd
  refine ⟨?_, ?_, Int.emod_nonneg _ (ne_of_gt pow256_pos), Int.emod_lt_of_pos _ pow256_pos,
    Int.emod_nonneg _ (ne_of_gt pow256_pos), Int.emod_lt_of_pos _ pow256_pos⟩
  · unfold execOp
    dsimp only
    rw [pop2_ok s _ x y rest hs, push_ok _ _ rest rfl hrest]
    rfl
  · unfold execOp
    dsimp only
    rw [pop2_ok s _ x y rest hs, push_ok _ _ rest rfl hrest]
    rfl

/-- C8 on `addFrame`, whose stack holds 1 and 2. -/
theorem C8_add_mul_witness :
    addFrame.stack = [1, 2] ∧ addFrame.stack.length ≤ Stack.maxDepth ∧
    execOp stdVm .oADD addFrame = .next { addFrame with stack := (2 + 1) % 2 ^ 256 :: [] } ∧
    execOp stdVm .oMUL addFrame = .next { addFrame with stack := (2 * 1) % 2 ^ 256 :: [] } ∧
    (0 : Int) ≤ (2 + 1) % 2 ^ 256 ∧ ((2 + 1) % 2 ^ 256 : Int) < 2 ^ 256 ∧
    (0 : Int) ≤ (2 * 1) % 2 ^ 256 ∧ ((2 * 1) % 2 ^ 256 : Int) < 2 ^ 256 :=
  ⟨rfl, by decide, C8_add_mul stdVm addFrame 2 1 [] rfl (by decide)⟩

set_option maxRecDepth 8000 in
/-- C9 (as stated, refuted): on `subFrame`, with the word 0 on top of the stack (popped
first) and the word 1 below it, the SUB case pushes `1 - 0 = 1`, not
`(0 - 1) mod 2^256 = 2^256 - 1`: the word on top is the one subtracted. -/
theorem C9_sub_subtracts_top :
    subFrame.stack = [0, 1] ∧
    execOp stdVm .oSUB subFrame = .next { subFrame with stack := [1] } ∧
    stepClosure stdVm subFrame =
      .next { closure := stdClosure [0x03] 10, mem := ⟨[]⟩, stack := [1], pc := 1, step := 1,
              hooked := [(0, .oSUB)] } ∧
    ((0 : Int) - 1) % 2 ^ 256 = 2 ^ 256 - 1 ∧ (1 : Int) ≠ 2 ^ 256 - 1 :=
  ⟨rfl, by rfl, by rfl, by norm_num, by norm_num⟩

/-- C9 (amended): with `y` the top of the stack and `x` the word below it, the SUB case
replaces them by `(x - y) mod 2^256`, the representative in `[0, 2^256)`. -/
theorem C9_sub (vm : Vm) (s : Frame) (x y : Int) (rest : Stack)
    (hs : s.stack = y :: x :: rest) (hd : s.stack.length ≤ Stack.maxDepth) :
    execOp vm .oSUB s = .next { s with stack := (x - y) % 2 ^ 256 :: rest } ∧
    0 ≤ (x - y) % 2 ^ 256 ∧ (x - y) % 2 ^ 256 < 2 ^ 256 := by
  have hrest := rest_within_cap s y x rest hs hd
  refine ⟨?_, Int.emod_nonneg _ (ne_of_gt pow256_pos), Int.emod_lt_of_pos _ pow256_pos⟩
  unfold execOp
  dsimp only
  rw [pop2_ok s _ x y rest hs, push_ok _ _ rest rfl hrest]
  rfl

/-- C9 (amended) with `y = 1` on top of the stack and `x = 0` below it: the result is
`2^256 - 1`. -/
theorem C9_sub_witness :
    (frameAt [0x03] 10 [1, 0] []).stack = [1, 0] ∧
    (frameAt [0x03] 10 [1, 0] []).stack.length ≤ Stack.maxDepth ∧
    ((0 : Int) - 1) % 2 ^ 256 = 2 ^ 256 - 1 ∧
    execOp stdVm .oSUB (frameAt [0x03] 10 [1, 0] []) =
      .next { frameAt [0x03] 10 [1, 0] [] with stack := (0 - 1) % 2 ^ 256 :: [] } ∧
    (0 : Int) ≤ (0 - 1) % 2 ^ 256 ∧ ((0 - 1) % 2 ^ 256 : Int) < 2 ^ 256 :=
  ⟨rfl, by decide, by norm_num,
    C9_sub stdVm (frameAt [0x03] 10 [1, 0] []) 0 1 [] rfl (by decide)⟩

/-- C10: with `x` and `y` the two operands as the code names them (`x` the base, `y` the
exponent, `y >= 0`), the EXP case replaces them by `x ^ y mod 2^256`, a word in
`[0, 2^256)`; for `y = 0` that is 1. -/
theorem C10_exp (vm : Vm) (s : Frame) (x y : Int) (rest : Stack)
    (hs : s.stack = y :: x :: rest) (hd : s.stack.length ≤ Stack.maxDepth) (hy : 0 ≤ y) :
    execOp vm .oEXP s = .next { s with stack := (x ^ y.toNat) % 2 ^ 256 :: rest } ∧
    0 ≤ (x ^ y.toNat) % 2 ^ 256 ∧ (x ^ y.toNat) % 2 ^ 256 < 2 ^ 256 ∧
    (y = 0 → (x ^ y.toNat) % 2 ^ 256 = 1) := by
  have hrest := rest_within_cap s y x rest hs hd
  have h0 : (1 : Int) % 2 ^ 256 = 1 := by norm_num
  refine ⟨?_, Int.emod_nonneg _ (ne_of_gt pow256_pos), Int.emod_lt_of_pos _ pow256_pos, ?_⟩
  · unfold execOp
    dsimp only
    rw [pop2_ok s _ x y rest hs, push_ok _ _ rest rfl hrest]
    have he : bigExp x y Pow256 = (x ^ y.toNat) % 2 ^ 256 := by
      unfold bigExp
      split
      · have : y = 0 := le_antisymm ‹y ≤ 0› hy
        subst this
        simp [h0]
      · rfl
    rw [he]
  · intro h
    subst h
    simp [h0]

/-- C10 on `expFrame`, with base 7 and exponent 0. -/
theorem C10_exp_witness :
    expFrame.stack = [0, 7] ∧ expFrame.stack.length ≤ Stack.maxDepth ∧ (0 : Int) ≤ 0 ∧
    execOp stdVm .oEXP expFrame =
      .next { expFrame with stack := ((7 : Int) ^ (0 : Int).toNat) % 2 ^ 256 :: [] } ∧
    (0 : Int) ≤ (7 ^ (0 : Int).toNat) % 2 ^ 256 ∧
    ((7 ^ (0 : Int).toNat) % 2 ^ 256 : Int) < 2 ^ 256 ∧
    ((0 : Int) = 0 → ((7 : Int) ^ (0 : Int).toNat) % 2 ^ 256 = 1) :=
  ⟨rfl, by decide, by decide, C10_exp stdVm expFrame 7 0 [] rfl (by decide) (by decide)⟩

/-! ## Division, signed arithmetic, negation -/

set_option maxRecDepth 8000 in
/-- C11 (the code at the failing input): DIV of 5 by 0 and MOD of 5 by 0 (the divisor
`y = 0` on top of the stack, `x = 5` below it) do not push 0: the iteration ends in the
run-time failure of `big.Int.Div` / `big.Int.Mod`, and so does the run of the programs
PUSH 5, PUSH 0, DIV and PUSH 5, PUSH 0, MOD. -/
theorem C11_div_mod_by_zero_fault :
    stepClosure stdVm (frameAt [0x04] 10 [0, 5] []) = .fault ∧
    stepClosure stdVm (frameAt [0x06] 10 [0, 5] []) = .fault ∧
    RunClosure stdVm (stdClosure divZeroScript 10) 3 = some .fault ∧
    RunClosure stdVm (stdClosure modZeroScript 10) 3 = some .fault :=
  ⟨rfl, rfl, by rfl, by rfl⟩

set_option maxRecDepth 8000 in
/-- C12 (the code at the failing input): SDIV of `x = 2^256 - 4` (that is -4) by `y = 2`
(on top of the stack) pushes `2^255 - 2`, the unsigned quotient, not `2^256 - 2` (that
is -2); SMOD of `x = 2^256 - 3` (that is -3) by `y = 2` pushes 1, not `2^256 - 1` (that
is -1). -/
theorem C12_sdiv_smod_unsigned :
    stepClosure stdVm (frameAt [0x05] 10 [2, 2 ^ 256 - 4] []) =
      .next (frameAfter [0x05] 10 [2 ^ 255 - 2] [] 1 .oSDIV) ∧
    stepClosure stdVm (frameAt [0x07] 10 [2, 2 ^ 256 - 3] []) =
      .next (frameAfter [0x07] 10 [1] [] 1 .oSMOD) ∧
    (2 : Int) ^ 255 - 2 ≠ 2 ^ 256 - 2 ∧ (1 : Int) ≠ 2 ^ 256 - 1 :=
  ⟨by rfl, by rfl, by norm_num, by norm_num⟩

set_option maxRecDepth 8000 in
/-- C13 (the code at the failing input): NEG of 0 pushes `2^256`, which is not 0 and is
not a word in `[0, 2^256)`. -/
theorem C13_neg_zero :
    stepClosure stdVm (frameAt [0x09] 10 [0] []) =
      .next (frameAfter [0x09] 10 [2 ^ 256] [] 1 .oNEG) ∧
    (2 : Int) ^ 256 ≠ 0 ∧ ¬ ((2 : Int) ^ 256 < 2 ^ 256) :=
  ⟨by rfl, by norm_num, lt_irrefl _⟩

/-! ## Bit operations -/

/-- C14 (as stated, refuted): OR of 4 and 2 pushes 1, whereas the bitwise OR of 4 and 2
is 6. -/
theorem C14_or_not_bitwise :
    stepClosure stdVm (frameAt [0x11] 10 [4, 2] []) =
      .next (frameAfter [0x11] 10 [1] [] 1 .oOR) ∧
    Int.lor 4 2 = 6 :=
  ⟨by rfl, by rfl⟩

/-- C14 (amended): on a stack (within its cap) whose two top entries are `x` and `y`, at
least one of them `>= 1`, the OR case replaces them by the truth value 1. -/
theorem C14_or_truth_value (vm : Vm) (s : Frame) (x y : Int) (rest : Stack)
    (hs : s.stack = y :: x :: rest) (hd : s.stack.length ≤ Stack.maxDepth)
    (hxy : 1 ≤ x ∨ 1 ≤ y) :
    execOp vm .oOR s = .next { s with stack := 1 :: rest } := by
  have hrest := rest_within_cap s y x rest hs hd
  have hc : x ≥ BigInt0 ∨ y ≥ BigInt0 := by
    unfold BigInt0
    rcases hxy with h | h
    · exact Or.inl (by omega)
    · exact Or.inr (by omega)
  unfold execOp
  dsimp only
  rw [pop2_ok s _ x y rest hs, if_pos hc, push_ok _ _ rest rfl hrest]
  rfl

/-- C14 (amended) on the frame with 4 on top of 2. -/
theorem C14_or_truth_value_witness :
    (frameAt [0x11] 10 [4, 2] []).stack = [4, 2] ∧
    (frameAt [0x11] 10 [4, 2] []).stack.length ≤ Stack.maxDepth ∧
    ((1 : Int) ≤ 2 ∨ (1 : Int) ≤ 4) ∧
    execOp stdVm .oOR (frameAt [0x11] 10 [4, 2] []) =
      .next { frameAt [0x11] 10 [4, 2] [] with stack := 1 :: [] } :=
  ⟨rfl, by decide, by decide,
    C14_or_truth_value stdVm (frameAt [0x11] 10 [4, 2] []) 2 4 [] rfl (by decide)
      (by decide)⟩

/-- C15 (as stated, refuted): AND of 6 and 3 pushes 1, whereas their bitwise AND is 2;
AND of 2 and 1 pushes 1, whereas their bitwise AND is 0. -/
theorem C15_and_not_bitwise :
    stepClosure stdVm (frameAt [0x10] 10 [6, 3] []) =
      .next (frameAfter [0x10] 10 [1] [] 1 .oAND) ∧
    Int.land 6 3 = 2 ∧
    stepClosure stdVm (frameAt [0x10] 10 [2, 1] []) =
      .next (frameAfter [0x10] 10 [1] [] 1 .oAND) ∧
    Int.land 2 1 = 0 :=
  ⟨by rfl, by rfl, by rfl, by rfl⟩

/-- C15 (amended): on a stack (within its cap) whose two top entries are `x` and `y`,
the AND case replaces them by the truth value 1 when `x >= 1` and `y >= 1` and by 0
otherwise, and the XOR case replaces them by their bitwise exclusive-or: bit `i` of the
result is the exclusive-or of bit `i` of `x` and bit `i` of `y`. -/
theorem C15_and_logical_xor_bitwise (vm : Vm) (s : Frame) (x y : Int) (rest : Stack)
    (hs : s.stack = y :: x :: rest) (hd : s.stack.length ≤ Stack.maxDepth) :
    execOp vm .oAND s = .next { s with stack := (if 1 ≤ x ∧ 1 ≤ y then 1 else 0) :: rest } ∧
    execOp vm .oXOR s = .next { s with stack := Int.xor x y :: rest } ∧
    ∀ i : Nat, (Int.xor x y).testBit i = xor (x.testBit i) (y.testBit i) := by
  have hrest := rest_within_cap s y x rest hs hd
  refine ⟨?_, ?_, fun i => Int.testBit_lxor x y i⟩
  · unfold execOp
    dsimp only
    rw [pop2_ok s _ x y rest hs]
    by_cases hc : 1 ≤ x ∧ 1 ≤ y
    · rw [if_pos (show x ≥ BigTrue ∧ y ≥ BigTrue from hc), if_pos hc,
        push_ok _ _ rest rfl hrest]
      rfl
    · rw [if_neg (show ¬ (x ≥ BigTrue ∧ y ≥ BigTrue) from hc), if_neg hc,
        push_ok _ _ rest rfl hrest]
      rfl
  · unfold execOp
    dsimp only
    rw [pop2_ok s _ x y rest hs, push_ok _ _ rest rfl hrest]
    rfl

/-- C15 (amended) on the frame with 6 on top of 3. -/
theorem C15_and_logical_xor_bitwise_witness :
    (frameAt [0x10] 10 [6, 3] []).stack = [6, 3] ∧
    (frameAt [0x10] 10 [6, 3] []).stack.length ≤ Stack.maxDepth ∧
    execOp stdVm .oAND (frameAt [0x10] 10 [6, 3] []) =
      .next { frameAt [0x10] 10 [6, 3] [] with
                stack := (if (1 : Int) ≤ 3 ∧ (1 : Int) ≤ 6 then 1 else 0) :: [] } ∧
    execOp stdVm .oXOR (frameAt [0x10] 10 [6, 3] []) =
      .next { frameAt [0x10] 10 [6, 3] [] with stack := Int.xor 3 6 :: [] } ∧
    ∀ i : Nat, (Int.xor 3 6).testBit i = xor ((3 : Int).testBit i) ((6 : Int).testBit i) :=
  ⟨rfl, by decide,
    C15_and_logical_xor_bitwise stdVm (frameAt [0x10] 10 [6, 3] []) 3 6 [] rfl (by decide)⟩

/-- C16 (the code at the failing input): BYTE with the word 258 (bytes 1, 2 at the low
end) and the index 31 on top of it pushes `(2 - 1) - 31 = -30`, where byte 31 of the 32-byte
big-endian representation of 258 is 2; the word 259, of the same byte length, gives the
same -30. -/
theorem C16_byte_pushes_position :
    stepClosure stdVm (frameAt [0x13] 10 [31, 258] []) =
      .next (frameAfter [0x13] 10 [-30] [] 1 .oBYTE) ∧
    (BigToBytes 258).length = 32 ∧ (BigToBytes 258).getD 31 0 = 2 ∧
    stepClosure stdVm (frameAt [0x13] 10 [31, 259] []) =
      .next (frameAfter [0x13] 10 [-30] [] 1 .oBYTE) :=
  ⟨by rfl, by rfl, by rfl, by rfl⟩

/-! ## SHA3 -/

set_option maxRecDepth 8000 in
/-- C17 (the code at the failing input): with the byte 1 followed by zero bytes in memory,
SHA3 of the 33 bytes from offset 0 (the offset on top of the size) pushes `2^256`, the
big-endian value of those bytes: no digest is computed and the pushed value is not below
`2^256`. -/
theorem C17_sha3_pushes_bytes :
    stepClosure stdVm (frameAt [0x20] 100 [0, 33] (1 :: List.replicate 31 0)) =
      .next (frameAfter [0x20] 100 [2 ^ 256] (1 :: List.replicate 31 0) 1 .oSHA3) ∧
    BigD (1 :: List.replicate 32 0) = 2 ^ 256 ∧ ¬ ((2 : Int) ^ 256 < 2 ^ 256) :=
  ⟨by rfl, by rfl, lt_irrefl _⟩

/-! ## PUSH and jumps -/

theorem Get_of_nonneg (c : Closure) (p : Int) (hp : 0 ≤ p) :
    c.Get p = c.Script.getD p.toNat 0 := by
  unfold Closure.Get
  rw [if_neg (not_lt.mpr hp)]

theorem Gets_eq_map (c : Closure) (p : Int) (n : Nat) :
    c.Gets p n = (List.range n).map (fun i : Nat => c.Get (p + (i : Int))) := by
  unfold Closure.Gets
  show List.map _ ((List.range n).flatMap fun a => [(Nat.cast a : Int)]) = _
  rw [← List.map_eq_flatMap (Nat.cast : Nat → Int) (List.range n), List.map_map]
  rfl

theorem Gets_eq_take_drop (c : Closure) (p : Int) (n : Nat) (hp : 0 ≤ p)
    (h : p.toNat + n ≤ c.Script.length) :
    c.Gets p n = (c.Script.drop p.toNat).take n := by
  rw [Gets_eq_map]
  apply List.ext_getElem
  · simp only [List.length_map, List.length_range, List.length_take, List.length_drop]
    omega
  · intro i h1 h2
    simp only [List.length_map, List.length_range] at h1
    have hi : (p + (i : Int)).toNat = p.toNat + i := by omega
    rw [List.getElem_map, List.getElem_range, Get_of_nonneg c _ (by omega), hi]
    rw [List.getElem_take, List.getElem_drop]
    rw [List.getD_eq_getElem _ _ (by omega)]

/-- C18: at a position `p >= 0` whose opcode is PUSH (`n = 32`) or PUSH20 (`n = 20`), with
the `n` immediate bytes at `p+1 .. p+n` inside the code, gas for the instruction (cost 1)
and room on the stack, the instruction pushes exactly one word, the big-endian value of
those `n` bytes, on top of the unchanged stack, and the loop goes on at
`pc = p + n + 1`; memory and closure are unchanged. -/
theorem C18_push_immediate (vm : Vm) (s : Frame) (op : OpCode) (n : Nat)
    (hop : vm.OpCode (s.closure.Get s.pc) = op)
    (hn : op = .oPUSH ∧ n = 32 ∨ op = .oPUSH20 ∧ n = 20)
    (hpc : 0 ≤ s.pc) (himm : s.pc.toNat + 1 + n ≤ s.closure.Script.length)
    (hgas : 1 ≤ s.closure.Gas) (hd : s.stack.length < Stack.maxDepth) :
    ∃ s', stepClosure vm s = .next s' ∧
      s'.stack = BigD ((s.closure.Script.drop (s.pc.toNat + 1)).take n) :: s.stack ∧
      s'.pc = s.pc + n + 1 ∧ s'.mem = s.mem ∧ s'.closure = s.closure := by
  have hp1 : (s.pc + Big1).toNat = s.pc.toNat + 1 := by unfold Big1; omega
  have hp0 : 0 ≤ s.pc + Big1 := by unfold Big1; omega
  rcases hn with ⟨h1, h2⟩ | ⟨h1, h2⟩
  · subst h1 h2
    rw [stepClosure_eq vm s .oPUSH 1 hop rfl hgas]
    unfold execOp
    dsimp only
    rw [push_ok { s with pc := s.pc + Big1, step := s.step + 1 } _ s.stack rfl hd]
    refine ⟨_, rfl, ?_, ?_, rfl, rfl⟩
    · show BigD (s.closure.Gets (s.pc + Big1) 32) :: s.stack = _
      rw [Gets_eq_take_drop s.closure _ 32 hp0 (by rw [hp1]; exact himm), hp1]
    · show s.pc + Big1 + 31 + Big1 = s.pc + ((32 : Nat) : Int) + 1
      unfold Big1; push_cast; ring
  · subst h1 h2
    rw [stepClosure_eq vm s .oPUSH20 1 hop rfl hgas]
    unfold execOp
    dsimp only
    rw [push_ok { s with pc := s.pc + Big1, step := s.step + 1 } _ s.stack rfl hd]
    refine ⟨_, rfl, ?_, ?_, rfl, rfl⟩
    · show BigD (s.closure.Gets (s.pc + Big1) 20) :: s.stack = _
      rw [Gets_eq_take_drop s.closure _ 20 hp0 (by rw [hp1]; exact himm), hp1]
    · show s.pc + Big1 + 19 + Big1 = s.pc + ((20 : Nat) : Int) + 1
      unfold Big1; push_cast; ring

set_option maxRecDepth 8000 in
/-- C18 on the program PUSH 3 at position 0: the word pushed is 3 and the loop goes on at
position 33. -/
theorem C18_push_immediate_witness :
    stdVm.OpCode ((frameAt pushScript 10 [] []).closure.Get (frameAt pushScript 10 [] []).pc)
      = .oPUSH ∧
    (0 : Int) ≤ (frameAt pushScript 10 [] []).pc ∧
    (frameAt pushScript 10 [] []).pc.toNat + 1 + 32 ≤
      (frameAt pushScript 10 [] []).closure.Script.length ∧
    (1 : Int) ≤ (frameAt pushScript 10 [] []).closure.Gas ∧
    BigD ((pushScript.drop 1).take 32) = 3 ∧
    ∃ s', stepClosure stdVm (frameAt pushScript 10 [] []) = .next s' ∧
      s'.stack = BigD (((frameAt pushScript 10 [] []).closure.Script.drop
        ((frameAt pushScript 10 [] []).pc.toNat + 1)).take 32) :: [] ∧
      s'.pc = (frameAt pushScript 10 [] []).pc + (32 : Nat) + 1 ∧
      s'.mem = ⟨[]⟩ ∧ s'.closure = stdClosure pushScript 10 :=
  ⟨rfl, by decide, by decide, by decide, by rfl,
    C18_push_immediate stdVm (frameAt pushScript 10 [] []) .oPUSH 32 rfl
      (Or.inl ⟨rfl, rfl⟩) (by decide) (by decide) (by decide) (by decide)⟩

/-- C19 (the code at the failing input): in the program JUMP, STOP, GASPRICE, MSIZE, the
JUMP with target 2 on the stack leaves `pc = 3`, and the next instruction run is the
MSIZE at position 3, not the GASPRICE at position 2. -/
theorem C19_jump_lands_after_target :
    stepClosure stdVm (frameAt jumpScript 10 [2] []) =
      .next (frameAfter jumpScript 10 [] [] 3 .oJUMP) ∧
    stdVm.OpCode ((stdClosure jumpScript 10).Get 2) = .oGASPRICE ∧
    stdVm.OpCode ((stdClosure jumpScript 10).Get 3) = .oMSIZE ∧
    stepClosure stdVm (frameAfter jumpScript 10 [] [] 3 .oJUMP) =
      .next { closure := stdClosure jumpScript 10, mem := ⟨[]⟩, stack := [0], pc := 4,
              step := 2, hooked := [(0, .oJUMP), (1, .oMSIZE)] } :=
  ⟨by rfl, rfl, rfl, by rfl⟩

/-- C20: on a stack of depth `d >= 2`, whose two top words are the pair `cond, pos` of
`stack.Popn()` (the target on top, the condition below it), a JUMPI that has gas (cost 1)
removes exactly these two words and pushes none, whether the branch is taken or not: the
stack afterwards is the rest, of depth `d - 2`. -/
theorem C20_jumpi_pops_two (vm : Vm) (s : Frame) (cond pos : Int) (rest : Stack)
    (hop : vm.OpCode (s.closure.Get s.pc) = .oJUMPI) (hgas : 1 ≤ s.closure.Gas)
    (hs : s.stack = pos :: cond :: rest) :
    ∃ s', stepClosure vm s = .next s' ∧ s'.stack = rest ∧
      s'.stack.length = s.stack.length - 2 := by
  rw [stepClosure_eq vm s .oJUMPI 1 hop rfl hgas]
  unfold execOp
  dsimp only
  rw [pop2_ok { s with step := s.step + 1 } _ cond pos rest hs]
  dsimp only
  by_cases hc : cond = BigTrue
  · rw [if_pos hc]
    exact ⟨_, rfl, rfl, by rw [hs]; rfl⟩
  · rw [if_neg hc]
    exact ⟨_, rfl, rfl, by rw [hs]; rfl⟩

/-- C20 on the one-byte program JUMPI with the target 7 on top of the condition 0 and
the word 9: the branch is not taken and the stack left is the word 9. -/
theorem C20_jumpi_pops_two_witness :
    stdVm.OpCode ((frameAt [0x5a] 10 [7, 0, 9] []).closure.Get
      (frameAt [0x5a] 10 [7, 0, 9] []).pc) = .oJUMPI ∧
    (1 : Int) ≤ (frameAt [0x5a] 10 [7, 0, 9] []).closure.Gas ∧
    (frameAt [0x5a] 10 [7, 0, 9] []).stack = [7, 0, 9] ∧
    ∃ s', stepClosure stdVm (frameAt [0x5a] 10 [7, 0, 9] []) = .next s' ∧ s'.stack = [9] ∧
      s'.stack.length = (frameAt [0x5a] 10 [7, 0, 9] []).stack.length - 2 :=
  ⟨rfl, by decide, rfl,
    C20_jumpi_pops_two stdVm (frameAt [0x5a] 10 [7, 0, 9] []) 0 7 [9] rfl (by decide) rfl⟩

/-- C33 (as stated, refuted): in the program JUMPI, STOP, STOP, MSIZE with the target 3
on top of the condition 2, the branch is not taken: `pc` is not set from the target, and
the loop goes on at position 1, the next instruction. -/
theorem C33_jumpi_two_falls_through :
    stepClosure stdVm (frameAt [0x5a, 0x00, 0x00, 0x5c] 10 [3, 2] []) =
      .next (frameAfter [0x5a, 0x00, 0x00, 0x5c] 10 [] [] 1 .oJUMPI) ∧
    execOp stdVm .oJUMPI (frameAt [0x5a, 0x00, 0x00, 0x5c] 10 [3, 2] []) =
      .next (frameAt [0x5a, 0x00, 0x00, 0x5c] 10 [] []) :=
  ⟨by rfl, by rfl⟩

/-- C33 (amended): with the target `pos` on top of the stack and the condition `cond`
below it (the pair `cond, pos` of `stack.Popn()`), the JUMPI case sets `pc` from the
target exactly when `cond = 1`; for every other condition (0, and also 2 and above) it
leaves `pc` as it is, and a JUMPI that has gas goes on at the next instruction,
`pc + 1`. -/
theorem C33_jumpi_branches_on_one (vm : Vm) (s : Frame) (cond pos : Int) (rest : Stack)
    (hop : vm.OpCode (s.closure.Get s.pc) = .oJUMPI) (hgas : 1 ≤ s.closure.Gas)
    (hs : s.stack = pos :: cond :: rest) :
    (cond = 1 → execOp vm .oJUMPI s = .next { s with stack := rest, pc := pos }) ∧
    (cond ≠ 1 → execOp vm .oJUMPI s = .next { s with stack := rest }) ∧
    (cond ≠ 1 → ∃ s', stepClosure vm s = .next s' ∧ s'.pc = s.pc + 1 ∧ s'.stack = rest) := by
  have he : execOp vm .oJUMPI s =
      if cond = BigTrue then .next { s with stack := rest, pc := pos }
      else .next { s with stack := rest } := by
    unfold execOp
    dsimp only
    rw [pop2_ok s _ cond pos rest hs]
  have he' : execOp vm .oJUMPI { s with step := s.step + 1 } =
      if cond = BigTrue then .next { s with step := s.step + 1, stack := rest, pc := pos }
      else .next { s with step := s.step + 1, stack := rest } := by
    unfold execOp
    dsimp only
    rw [pop2_ok { s with step := s.step + 1 } _ cond pos rest hs]
  refine ⟨fun h => ?_, fun h => ?_, fun h => ?_⟩
  · rw [he, if_pos (show cond = BigTrue from h)]
  · rw [he, if_neg (show ¬ cond = BigTrue from h)]
  · rw [stepClosure_eq vm s .oJUMPI 1 hop rfl hgas, he',
      if_neg (show ¬ cond = BigTrue from h)]
    exact ⟨_, rfl, rfl, rfl⟩

/-- C33 (amended) on the program JUMPI, STOP, STOP, MSIZE with the target 3 on top of
the condition 2. -/
theorem C33_jumpi_branches_on_one_witness :
    stdVm.OpCode ((frameAt [0x5a, 0x00, 0x00, 0x5c] 10 [3, 2] []).closure.Get
      (frameAt [0x5a, 0x00, 0x00, 0x5c] 10 [3, 2] []).pc) = .oJUMPI ∧
    (1 : Int) ≤ (frameAt [0x5a, 0x00, 0x00, 0x5c] 10 [3, 2] []).closure.Gas ∧
    (frameAt [0x5a, 0x00, 0x00, 0x5c] 10 [3, 2] []).stack = [3, 2] ∧
    execOp stdVm .oJUMPI (frameAt [0x5a, 0x00, 0x00, 0x5c] 10 [3, 1] []) =
      .next { frameAt [0x5a, 0x00, 0x00, 0x5c] 10 [] [] with pc := 3 } ∧
    (((2 : Int) = 1 → execOp stdVm .oJUMPI (frameAt [0x5a, 0x00, 0x00, 0x5c] 10 [3, 2] []) =
        .next { frameAt [0x5a, 0x00, 0x00, 0x5c] 10 [3, 2] [] with stack := [], pc := 3 }) ∧
      ((2 : Int) ≠ 1 → execOp stdVm .oJUMPI (frameAt [0x5a, 0x00, 0x00, 0x5c] 10 [3, 2] []) =
        .next { frameAt [0x5a, 0x00, 0x00, 0x5c] 10 [3, 2] [] with stack := [] }) ∧
      ((2 : Int) ≠ 1 → ∃ s', stepClosure stdVm (frameAt [0x5a, 0x00, 0x00, 0x5c] 10 [3, 2] []) =
          .next s' ∧ s'.pc = (frameAt [0x5a, 0x00, 0x00, 0x5c] 10 [3, 2] []).pc + 1 ∧
          s'.stack = [])) :=
  ⟨rfl, by decide, rfl, by rfl,
    C33_jumpi_branches_on_one stdVm (frameAt [0x5a, 0x00, 0x00, 0x5c] 10 [3, 2] []) 2 3 []
      rfl (by decide) rfl⟩

/-! ## Memory -/

/-! ### Big-endian bytes -/

theorem foldl_bytes (l : List Nat) (a : Nat) :
    l.foldl (fun acc b => acc * 256 + b) a =
      a * 256 ^ l.length + l.foldl (fun acc b => acc * 256 + b) 0 := by
  induction l generalizing a with
  | nil => simp
  | cons x l ih =>
    simp only [List.foldl_cons, List.length_cons]
    rw [ih (a * 256 + x), ih (0 * 256 + x)]
    ring

theorem natBytesAux_value (fuel : Nat) : ∀ (n : Nat) (acc : List Nat), n ≤ fuel →
    (natBytesAux fuel n acc).foldl (fun acc b => acc * 256 + b) 0 =
      n * 256 ^ acc.length + acc.foldl (fun acc b => acc * 256 + b) 0 := by
  induction fuel with
  | zero =>
    intro n acc h
    have : n = 0 := by omega
    subst this
    simp [natBytesAux]
  | succ f ih =>
    intro n acc h
    unfold natBytesAux
    split
    · rename_i h0
      subst h0
      simp
    · rename_i h0
      have hle : n / 256 ≤ f := by
        have : n / 256 < n := Nat.div_lt_self (Nat.pos_of_ne_zero h0) (by decide)
        omega
      rw [ih (n / 256) (n % 256 :: acc) hle]
      simp only [List.foldl_cons, List.length_cons]
      rw [foldl_bytes acc (0 * 256 + n % 256)]
      have := Nat.div_add_mod n 256
      calc n / 256 * 256 ^ (acc.length + 1) +
            ((0 * 256 + n % 256) * 256 ^ acc.length +
              acc.foldl (fun acc b => acc * 256 + b) 0)
          = (256 * (n / 256) + n % 256) * 256 ^ acc.length +
              acc.foldl (fun acc b => acc * 256 + b) 0 := by ring
        _ = n * 256 ^ acc.length + acc.foldl (fun acc b => acc * 256 + b) 0 := by rw [this]

theorem natBytesAux_length_le (fuel : Nat) : ∀ (n k : Nat) (acc : List Nat), n < 256 ^ k →
    (natBytesAux fuel n acc).length ≤ acc.length + k := by
  induction fuel with
  | zero => intro n k acc _; simp [natBytesAux]
  | succ f ih =>
    intro n k acc h
    unfold natBytesAux
    split
    · omega
    · rename_i h0
      cases k with
      | zero => simp at h; exact absurd h h0
      | succ k =>
        have hk : n / 256 < 256 ^ k := by
          rw [Nat.div_lt_iff_lt_mul (by decide)]
          rw [pow_succ] at h
          exact h
        have := ih (n / 256) k (n % 256 :: acc) hk
        simp only [List.length_cons] at this
        omega

theorem BigD_bigBytes (w : Int) (hw : 0 ≤ w) : BigD (bigBytes w) = w := by
  unfold BigD bigBytes
  rw [natBytesAux_value w.natAbs w.natAbs [] (le_refl _)]
  simp only [List.length_nil, pow_zero, mul_one, List.foldl_nil, add_zero]
  exact Int.natAbs_of_nonneg hw

theorem bigBytes_length_le (w : Int) (hw : 0 ≤ w) (hlt : w < 2 ^ 256) :
    (bigBytes w).length ≤ 32 := by
  unfold bigBytes
  have h : w.natAbs < 256 ^ 32 := by
    have : (w.natAbs : Int) < 2 ^ 256 := by rw [Int.natAbs_of_nonneg hw]; exact hlt
    have h2 : ((256 ^ 32 : Nat) : Int) = 2 ^ 256 := by norm_num
    rw [← h2] at this
    exact_mod_cast this
  have := natBytesAux_length_le w.natAbs w.natAbs 32 [] h
  simpa using this

theorem BigToBytes_length (w : Int) (hw : 0 ≤ w) (hlt : w < 2 ^ 256) :
    (BigToBytes w).length = 32 := by
  have := bigBytes_length_le w hw hlt
  unfold BigToBytes
  simp only [List.length_append, List.length_replicate]
  omega

theorem BigD_zeros_append (k : Nat) (l : List Nat) :
    BigD (List.replicate k 0 ++ l) = BigD l := by
  unfold BigD
  induction k with
  | zero => rfl
  | succ k ih =>
    rw [List.replicate_succ, List.cons_append, List.foldl_cons]
    exact ih

theorem BigD_BigToBytes (w : Int) (hw : 0 ≤ w) : BigD (BigToBytes w) = w := by
  unfold BigToBytes
  rw [BigD_zeros_append, BigD_bigBytes w hw]

/-! ### Memory: a region written, then read -/

theorem writeBytes_read (store : List Nat) (o : Nat) (v : List Nat) (hv : v.length = 32) :
    (List.range 32).map (fun i => (writeBytes store o 32 v).getD (o + i) 0) = v := by
  apply List.ext_getElem
  · simp [hv]
  · intro i h1 h2
    simp only [List.length_map, List.length_range] at h1
    rw [List.getElem_map, List.getElem_range]
    unfold writeBytes
    have hlen : o + i < max store.length (o + 32) := by omega
    rw [List.getD_eq_getElem _ _ (by simp only [List.length_map, List.length_range]; exact hlen)]
    rw [List.getElem_map, List.getElem_range]
    rw [if_pos (by rw [hv]; simp only [min_self]; omega)]
    rw [Nat.add_sub_cancel_left, List.getD_eq_getElem _ _ (by omega)]

theorem Memory_Set_ok (m : Memory) (off : Int) (v : List Nat) (h : 0 ≤ off) :
    m.Set off 32 v = some ⟨writeBytes m.store off.toNat 32 v⟩ := by
  unfold Memory.Set
  rw [if_neg (by omega)]
  rfl

theorem Memory_Get_written (store : List Nat) (off : Int) (v : List Nat) (h : 0 ≤ off)
    (hv : v.length = 32) :
    (⟨writeBytes store off.toNat 32 v⟩ : Memory).Get off 32 = some v := by
  unfold Memory.Get
  rw [if_neg (by omega)]
  show some ((List.range 32).map _) = _
  rw [writeBytes_read store off.toNat v hv]

theorem int64Of_of_lt (o : Int) (h0 : 0 ≤ o) (h : o < 2 ^ 63) : int64Of o = o := by
  unfold int64Of
  omega

set_option maxRecDepth 8000 in
/-- C21 (as stated, refuted): for the offset `o = 2^63`, which is `>= 0`, the MSTORE of
the word 7 does not store it: the offset handed to the memory is `o.Int64() = -2^63`, no
region of the memory, and the run ends in that failure, so that no MLOAD follows. -/
theorem C21_mstore_offset_truncated :
    (0 : Int) ≤ 2 ^ 63 ∧ int64Of (2 ^ 63) = -2 ^ 63 ∧
    execOp stdVm .oMSTORE (frameAt [0x55] 10 [2 ^ 63, 7] []) = .fault ∧
    stepClosure stdVm (frameAt [0x55] 10 [2 ^ 63, 7] []) = .fault ∧
    RunClosure stdVm (stdClosure ([0x50] ++ imm32 7 ++ [0x50] ++
      (List.replicate 24 0 ++ [128] ++ List.replicate 7 0) ++ [0x55, 0x00]) 10) 4 =
      some .fault :=
  ⟨by norm_num, by rfl, by rfl, by rfl, by rfl⟩

/-- C21 (amended): with an offset word `o` whose value `o.Int64()` is `>= 0` (every `o`
in `[0, 2^63)` is one) on top of the stack and the word `w` in `[0, 2^256)` below it, the
MSTORE case writes `w` at that offset, whatever the memory before; and in every frame
with the memory so obtained, the MLOAD case with `o` on top of the stack (within its
cap) replaces `o` by `w`. -/
theorem C21_memory_round_trip (vm : Vm) (s : Frame) (w o : Int) (rest : Stack)
    (hs : s.stack = o :: w :: rest) (hw : 0 ≤ w) (hlt : w < 2 ^ 256) (ho : 0 ≤ int64Of o) :
    ∃ s1, execOp vm .oMSTORE s = .next s1 ∧ s1.stack = rest ∧
      ∀ (s2 : Frame) (rest2 : Stack), s2.mem = s1.mem → s2.stack = o :: rest2 →
        s2.stack.length ≤ Stack.maxDepth →
        execOp vm .oMLOAD s2 = .next { s2 with stack := w :: rest2 } := by
  refine ⟨{ s with stack := rest,
                   mem := ⟨writeBytes s.mem.store (int64Of o).toNat 32 (BigToBytes w)⟩ },
    ?_, rfl, ?_⟩
  · unfold execOp
    dsimp only
    rw [pop2_ok s _ w o rest hs]
    dsimp only
    rw [Memory_Set_ok _ _ _ ho]
  · intro s2 rest2 hm hs2 hd
    have hrest : rest2.length < Stack.maxDepth := by
      rw [hs2] at hd
      simp only [List.length_cons] at hd
      omega
    unfold execOp
    dsimp only
    rw [pop1_ok s2 _ o rest2 hs2]
    dsimp only
    rw [hm, Memory_Get_written _ _ _ ho (BigToBytes_length w hw hlt)]
    dsimp only
    rw [push_ok _ _ rest2 rfl hrest, BigD_BigToBytes w hw]

set_option maxRecDepth 8000 in
/-- C21 (amended) with the word 7 stored at offset 64 of an empty memory and loaded
again. -/
theorem C21_memory_round_trip_witness :
    (frameAt [0x55] 10 [64, 7] []).stack = [64, 7] ∧ (0 : Int) ≤ 7 ∧ (7 : Int) < 2 ^ 256 ∧
    0 ≤ int64Of 64 ∧
    execOp stdVm .oMSTORE (frameAt [0x55] 10 [64, 7] []) =
      .next (frameAt [0x55] 10 [] (List.replicate 95 0 ++ [7])) ∧
    execOp stdVm .oMLOAD (frameAt [0x54] 10 [64] (List.replicate 95 0 ++ [7])) =
      .next (frameAt [0x54] 10 [7] (List.replicate 95 0 ++ [7])) ∧
    ∃ s1, execOp stdVm .oMSTORE (frameAt [0x55] 10 [64, 7] []) = .next s1 ∧ s1.stack = [] ∧
      ∀ (s2 : Frame) (rest2 : Stack), s2.mem = s1.mem → s2.stack = 64 :: rest2 →
        s2.stack.length ≤ Stack.maxDepth →
        execOp stdVm .oMLOAD s2 = .next { s2 with stack := 7 :: rest2 } :=
  ⟨rfl, by decide, by norm_num, by decide, by rfl, by rfl,
    C21_memory_round_trip stdVm (frameAt [0x55] 10 [64, 7] []) 7 64 [] rfl (by decide)
      (by norm_num) (by decide)⟩

set_option maxRecDepth 8000 in
/-- C22 (the code at the failing input): on a memory of 32 bytes 9, MSTORE8 of the word
0x1234 at offset 0 (the offset on top of the value) writes 32 bytes: bytes 0 .. 30 become
0 and byte 31 becomes 0x34 = 52, where the claim says that byte 0 becomes 52 and bytes
1 .. 31 keep the value 9. -/
theorem C22_mstore8_writes_word :
    stepClosure stdVm (frameAt [0x56] 10 [0, 0x1234] (List.replicate 32 9)) =
      .next (frameAfter [0x56] 10 [] (List.replicate 31 0 ++ [52]) 1 .oMSTORE8) ∧
    (0x1234 : Int) % 256 = 52 :=
  ⟨by rfl, by decide⟩

/-! ## Unmapped opcodes, stack underflow, stubs -/

/-- C23: when the byte at `pc` is not a mapped opcode, the iteration makes `RunClosure`
return at once with empty bytes, whatever the gas, and stack, memory and closure (so its
storage) are those before the instruction. -/
theorem C23_unmapped_returns_empty (vm : Vm) (s : Frame) (b : Nat) (fuel : Nat)
    (hop : vm.OpCode (s.closure.Get s.pc) = .oUnmapped b) :
    ∃ s', stepClosure vm s = .returned [] s' ∧
      runLoop vm (fuel + 1) s = some (.returned [] s') ∧
      s'.stack = s.stack ∧ s'.mem = s.mem ∧ s'.closure = s.closure := by
  have h : stepClosure vm s = .returned [] { s with step := s.step + 1 } := by
    unfold stepClosure
    dsimp only
    rw [hop]
    show (if s.closure.Gas < GasStep then _ else _) = _
    split
    · rfl
    · rfl
  refine ⟨{ s with step := s.step + 1 }, h, ?_, rfl, rfl, rfl⟩
  unfold runLoop
  rw [h]

/-- C23 on the one-byte program 0xFE with gas 100. -/
theorem C23_unmapped_returns_empty_witness :
    stdVm.OpCode ((initFrame (stdClosure [0xfe] 100)).closure.Get
      (initFrame (stdClosure [0xfe] 100)).pc) = .oUnmapped 0xfe ∧
    RunClosure stdVm (stdClosure [0xfe] 100) 1 =
      some (.returned [] { initFrame (stdClosure [0xfe] 100) with step := 1 }) ∧
    ∃ s', stepClosure stdVm (initFrame (stdClosure [0xfe] 100)) = .returned [] s' ∧
      runLoop stdVm (0 + 1) (initFrame (stdClosure [0xfe] 100)) = some (.returned [] s') ∧
      s'.stack = [] ∧ s'.mem = ⟨[]⟩ ∧ s'.closure = stdClosure [0xfe] 100 :=
  ⟨rfl, rfl, C23_unmapped_returns_empty stdVm (initFrame (stdClosure [0xfe] 100)) 0xfe 0 rfl⟩

/-- C25 (the code at the failing input): on the empty stack (depth 0), GASPRICE and
GASLIMIT leave the stack empty; no word is pushed. -/
theorem C25_gasprice_gaslimit_push_nothing :
    stepClosure stdVm (frameAt [0x37] 10 [] []) =
      .next (frameAfter [0x37] 10 [] [] 1 .oGASPRICE) ∧
    stepClosure stdVm (frameAt [0x45] 10 [] []) =
      .next (frameAfter [0x45] 10 [] [] 1 .oGASLIMIT) :=
  ⟨rfl, rfl⟩

/-! ## The debug hook -/

theorem push_stepIs (s : Frame) (d : Int) (st : Int) (hk : List (Int × OpCode))
    (h : s.step = st ∧ s.hooked = hk) : (push s d).stepIs st hk := by
  unfold push
  cases s.stack.Push d with
  | none => exact True.intro
  | some stk => exact h

theorem next_stepIs (s : Frame) (st : Int) (hk : List (Int × OpCode))
    (h : s.step = st ∧ s.hooked = hk) : (Outcome.next s).stepIs st hk := h

theorem pop1_stepIs (s : Frame) (k : Int → Frame → Outcome) (st : Int)
    (hk : List (Int × OpCode))
    (h : ∀ x s', (s'.step = s.step ∧ s'.hooked = s.hooked) → (k x s').stepIs st hk) :
    (pop1 s k).stepIs st hk := by
  unfold pop1
  cases s.stack.Pop with
  | none => exact True.intro
  | some p => exact h _ _ ⟨rfl, rfl⟩

theorem pop2_stepIs (s : Frame) (k : Int → Int → Frame → Outcome) (st : Int)
    (hk : List (Int × OpCode))
    (h : ∀ x y s', (s'.step = s.step ∧ s'.hooked = s.hooked) → (k x y s').stepIs st hk) :
    (pop2 s k).stepIs st hk := by
  unfold pop2
  cases s.stack.Popn with
  | none => exact True.intro
  | some p => exact h _ _ _ ⟨rfl, rfl⟩

theorem ite_stepIs {c : Prop} [Decidable c] {a b : Outcome} {st : Int}
    {hk : List (Int × OpCode)} (ha : a.stepIs st hk) (hb : b.stepIs st hk) :
    (if c then a else b).stepIs st hk := by
  split <;> assumption

theorem execOp_stepIs (vm : Vm) (op : OpCode) (s : Frame) :
    (execOp vm op s).stepIs (if isPush op then s.step + 1 else s.step) s.hooked := by
  cases op <;> unfold execOp <;> dsimp only
  case oPUSH =>
    rcases push_eq { s with pc := s.pc + Big1 } (BigD (s.closure.Gets (s.pc + Big1) 32))
      with h | ⟨st, h⟩
    · rw [h]; exact True.intro
    · rw [h]; exact ⟨rfl, rfl⟩
  case oPUSH20 =>
    rcases push_eq { s with pc := s.pc + Big1 } (BigD (s.closure.Gets (s.pc + Big1) 20))
      with h | ⟨st, h⟩
    · rw [h]; exact True.intro
    · rw [h]; exact ⟨rfl, rfl⟩
  all_goals show Outcome.stepIs s.step s.hooked _
  case oDUP =>
    split
    · exact True.intro
    · exact push_stepIs _ _ _ _ ⟨rfl, rfl⟩
  case oSWAP =>
    apply pop2_stepIs; intro x y s' hs'
    rcases push_eq s' y with h | ⟨st, h⟩
    · rw [h]; exact True.intro
    · rw [h]; exact push_stepIs _ _ _ _ hs'
  case oCALL =>
    apply pop1_stepIs; intro addr s1 h1
    apply pop2_stepIs; intro gas value s2 h2
    apply pop2_stepIs; intro inSize inOffset s3 h3
    apply pop2_stepIs; intro retSize retOffset s4 h4
    have h : s4.step = s.step ∧ s4.hooked = s.hooked :=
      ⟨by rw [h4.1, h3.1, h2.1, h1.1], by rw [h4.2, h3.2, h2.2, h1.2]⟩
    split
    · exact True.intro
    · split
      · exact True.intro
      · exact h
  all_goals first
    | exact next_stepIs _ _ _ ⟨rfl, rfl⟩
    | exact True.intro
    | exact push_stepIs _ _ _ _ ⟨rfl, rfl⟩
    | (apply pop2_stepIs; intro x y s' hs'; dsimp only
       first
         | exact push_stepIs _ _ _ _ hs'
         | exact next_stepIs _ _ _ hs'
         | (apply ite_stepIs <;>
              first | exact push_stepIs _ _ _ _ hs' | exact next_stepIs _ _ _ hs' | exact True.intro)
         | (split <;>
              first
                | exact push_stepIs _ _ _ _ hs' | exact next_stepIs _ _ _ hs' | exact True.intro))
    | (apply pop1_stepIs; intro x s' hs'; dsimp only
       first
         | exact push_stepIs _ _ _ _ hs'
         | exact next_stepIs _ _ _ hs'
         | (apply ite_stepIs <;> exact push_stepIs _ _ _ _ hs')
         | (split <;>
              first | exact push_stepIs _ _ _ _ hs' | exact next_stepIs _ _ _ hs' | exact True.intro))

theorem stepClosure_hook (vm : Vm) (s s' : Frame) (h : stepClosure vm s = .next s') :
    s'.step = s.step + 1 + (if isPush (vm.OpCode (s.closure.Get s.pc)) then 1 else 0) ∧
    s'.hooked = s.hooked ++ [(s'.step - 1, vm.OpCode (s.closure.Get s.pc))] := by
  unfold stepClosure at h
  dsimp only at h
  split at h
  · cases h
  · split at h
    · cases h
    · have hx := execOp_stepIs vm (vm.OpCode (s.closure.Get s.pc)) { s with step := s.step + 1 }
      revert h hx
      cases execOp vm (vm.OpCode (s.closure.Get s.pc)) { s with step := s.step + 1 } with
      | next s2 =>
        intro h hx
        have h2 : s' =
            { s2 with
                pc := s2.pc + Big1,
                hooked := s2.hooked ++ [(s2.step - 1, vm.OpCode (s.closure.Get s.pc))] } := by
          simp only [endOfBody, Outcome.next.injEq] at h
          exact h.symm
        obtain ⟨h3, h4⟩ : s2.step = _ ∧ s2.hooked = _ := hx
        subst h2
        dsimp only at h3 h4 ⊢
        rw [h4]
        refine ⟨?_, rfl⟩
        rw [h3]
        split <;> ring
      | returned r s2 => intro h; simp [endOfBody] at h
      | stackFault => intro h; simp [endOfBody] at h
      | fault => intro h; simp [endOfBody] at h

theorem pushCount_append_one (l : List (Int × OpCode)) (n : Int) (op : OpCode) :
    (pushCount (l ++ [(n, op)]) : Int) = pushCount l + (if isPush op then 1 else 0) := by
  unfold pushCount
  rw [List.countP_append]
  cases h : isPush op <;> simp [List.countP_cons, h]

theorem stepsFrom_inv (vm : Vm) (n : Nat) : ∀ (s0 s : Frame) (m : Nat),
    s0.hooked.length = m → s0.step = m + pushCount s0.hooked →
    stepsFrom vm n s0 = some s →
    s.hooked.length = m + n ∧ s.step = (m + n : Nat) + pushCount s.hooked := by
  induction n with
  | zero =>
    intro s0 s m h1 h2 h
    simp only [stepsFrom, Option.some.injEq] at h
    subst h
    exact ⟨h1, by simpa using h2⟩
  | succ n ih =>
    intro s0 s m h1 h2 h
    unfold stepsFrom at h
    cases hs : stepClosure vm s0 with
    | next s1 =>
      rw [hs] at h
      dsimp only at h
      obtain ⟨h3, h4⟩ := stepClosure_hook vm s0 s1 hs
      have h5 : s1.hooked.length = m + 1 := by rw [h4, List.length_append, h1]; rfl
      have h6 : s1.step = ((m + 1 : Nat) : Int) + pushCount s1.hooked := by
        rw [h4, pushCount_append_one, h3, h2]
        push_cast
        ring
      have := ih s1 s (m + 1) h5 h6 h
      rw [show m + (n + 1) = m + 1 + n by omega]
      exact this
    | returned r s1 => rw [hs] at h; cases h
    | stackFault => rw [hs] at h; cases h
    | fault => rw [hs] at h; cases h

/-- C26 (as stated, refuted): in the run of the program PUSH 3 the first invocation of
the hook (invocation 0) receives the step number 1, not 0. -/
theorem C26_push_skips_a_step :
    stepClosure stdVm (frameAt pushScript 10 [] []) =
      .next { closure := stdClosure pushScript 10, mem := ⟨[]⟩, stack := [3], pc := 33,
              step := 2, hooked := [(1, .oPUSH)] } := by
  rfl

/-- C26 (amended): in every run of `RunClosure`, the hook invocation after instruction
`k` (the instruction of iteration `k = 0, 1, 2, ...`, when it leaves the loop running)
is invocation `k`, and it receives the opcode of that instruction together with the step
number `k + p`, `p` being the number of PUSH and PUSH20 among the instructions
`0 .. k`. -/
theorem C26_hook_step_numbers (vm : Vm) (closure : Closure) (k : Nat) (sk sk1 : Frame)
    (h1 : stepsFrom vm k (initFrame closure) = some sk)
    (h2 : stepClosure vm sk = .next sk1) :
    sk.hooked.length = k ∧
    sk1.hooked = sk.hooked ++
      [((k : Int) + pushCount sk1.hooked, vm.OpCode (sk.closure.Get sk.pc))] := by
  obtain ⟨h3, h4⟩ := stepsFrom_inv vm k (initFrame closure) sk 0 rfl rfl h1
  obtain ⟨h5, h6⟩ := stepClosure_hook vm sk sk1 h2
  rw [Nat.zero_add] at h3 h4
  refine ⟨h3, ?_⟩
  have h7 : sk1.step - 1 = (k : Int) + pushCount sk1.hooked := by
    rw [h6, pushCount_append_one, h5, h4]
    ring
  rw [← h7]
  exact h6

/-- C26 (amended) on the program PUSH 3: instruction 0 is a PUSH, and invocation 0
receives the step number `0 + 1`. -/
theorem C26_hook_step_numbers_witness :
    stepsFrom stdVm 0 (initFrame (stdClosure pushScript 10)) =
      some (initFrame (stdClosure pushScript 10)) ∧
    stepClosure stdVm (initFrame (stdClosure pushScript 10)) =
      .next { closure := stdClosure pushScript 10, mem := ⟨[]⟩, stack := [3], pc := 33,
              step := 2, hooked := [(1, .oPUSH)] } ∧
    (initFrame (stdClosure pushScript 10)).hooked.length = 0 ∧
    [((1 : Int), OpCode.oPUSH)] = (initFrame (stdClosure pushScript 10)).hooked ++
      [(((0 : Nat) : Int) + pushCount [((1 : Int), OpCode.oPUSH)],
        stdVm.OpCode ((initFrame (stdClosure pushScript 10)).closure.Get
          (initFrame (stdClosure pushScript 10)).pc))] :=
  ⟨rfl, by rfl,
    C26_hook_step_numbers stdVm (stdClosure pushScript 10) 0
      (initFrame (stdClosure pushScript 10))
      { closure := stdClosure pushScript 10, mem := ⟨[]⟩, stack := [3], pc := 33,
        step := 2, hooked := [(1, .oPUSH)] } rfl (by rfl)⟩

/-! ## `Transfer` -/

/-- C27: `Transfer` returns an error exactly when the balance of `src` is strictly below
`amount`, and either it returns no error or the accounts are those before the call. -/
theorem C27_transfer_error_iff (st : Accounts) (src dst : Nat) (amount : Int) :
    ((Transfer st src dst amount).1 ≠ none ↔ st.Balance src < amount) ∧
    ((Transfer st src dst amount).1 = none ∨ (Transfer st src dst amount).2 = st) := by
  unfold Transfer
  by_cases h : st.Balance src < amount
  · simp [h]
  · simp [h]

/-- C28: for two distinct accounts and an amount not above the balance of `src`,
`Transfer` returns no error, the balance of `src` is lower by `amount`, the balance of
`dst` is higher by `amount`, and their sum is unchanged. -/
theorem C28_transfer_moves_amount (st : Accounts) (src dst : Nat) (amount : Int)
    (hne : src ≠ dst) (hb : amount ≤ st.Balance src) :
    (Transfer st src dst amount).1 = none ∧
    (Transfer st src dst amount).2.Balance src = st.Balance src - amount ∧
    (Transfer st src dst amount).2.Balance dst = st.Balance dst + amount ∧
    (Transfer st src dst amount).2.Balance src + (Transfer st src dst amount).2.Balance dst =
      st.Balance src + st.Balance dst := by
  have h : ¬ st.Balance src < amount := not_lt.mpr hb
  have hne' : ¬ dst = src := fun e => hne e.symm
  have ht : Transfer st src dst amount =
      (none, (st.SubBalance src amount).AddBalance dst amount) := by
    unfold Transfer
    rw [if_neg h]
  rw [ht]
  simp only [Accounts.Balance, Accounts.AddBalance, Accounts.SubBalance, hne, hne', if_true,
    if_false]
  refine ⟨trivial, trivial, trivial, ?_⟩
  ring

/-- C28 on `stdAccounts`: 3 is moved from account 1 (holding 10) to account 2
(holding 5). -/
theorem C28_transfer_moves_amount_witness :
    (1 : Nat) ≠ 2 ∧ (3 : Int) ≤ stdAccounts.Balance 1 ∧
    (Transfer stdAccounts 1 2 3).1 = none ∧
    (Transfer stdAccounts 1 2 3).2.Balance 1 = stdAccounts.Balance 1 - 3 ∧
    (Transfer stdAccounts 1 2 3).2.Balance 2 = stdAccounts.Balance 2 + 3 ∧
    (Transfer stdAccounts 1 2 3).2.Balance 1 + (Transfer stdAccounts 1 2 3).2.Balance 2 =
      stdAccounts.Balance 1 + stdAccounts.Balance 2 :=
  ⟨by decide, by decide, C28_transfer_moves_amount stdAccounts 1 2 3 (by decide) (by decide)⟩

/-- C34 (as stated, refuted): on `stdAccounts` (account 1 holds 10, account 2 holds 5)
the transfer of the amount -3 from account 1 to account 2 succeeds, raises the balance of
account 1 to 13 and lowers the balance of account 2 to 2; the transfer of -7 succeeds
and leaves account 2 with the balance -2. -/
theorem C34_negative_amount_reverses :
    (Transfer stdAccounts 1 2 (-3)).1 = none ∧
    (Transfer stdAccounts 1 2 (-3)).2.Balance 1 = 13 ∧ stdAccounts.Balance 1 = 10 ∧
    (Transfer stdAccounts 1 2 (-3)).2.Balance 2 = 2 ∧ stdAccounts.Balance 2 = 5 ∧
    (Transfer stdAccounts 1 2 (-7)).1 = none ∧
    (Transfer stdAccounts 1 2 (-7)).2.Balance 2 = -2 :=
  ⟨by decide, by decide, by decide, by decide, by decide, by decide, by decide⟩

/-- C34 (amended): for every amount `>= 0` (zero included) and every two accounts, a
`Transfer` that returns no error does not raise the balance of `src` and does not lower
the balance of `dst`; and when both balances are non-negative before the call they are
non-negative after it. -/
theorem C34_transfer_nonneg_amount (st : Accounts) (src dst : Nat) (amount : Int)
    (h0 : 0 ≤ amount) (hok : (Transfer st src dst amount).1 = none) :
    (Transfer st src dst amount).2.Balance src ≤ st.Balance src ∧
    st.Balance dst ≤ (Transfer st src dst amount).2.Balance dst ∧
    (0 ≤ st.Balance src → 0 ≤ st.Balance dst →
      0 ≤ (Transfer st src dst amount).2.Balance src ∧
      0 ≤ (Transfer st src dst amount).2.Balance dst) := by
  have hb : ¬ st.Balance src < amount := by
    intro h
    unfold Transfer at hok
    rw [if_pos h] at hok
    cases hok
  have ht : Transfer st src dst amount =
      (none, (st.SubBalance src amount).AddBalance dst amount) := by
    unfold Transfer
    rw [if_neg hb]
  rw [ht]
  have hb' : amount ≤ st src := not_lt.mp hb
  simp only [Accounts.Balance, Accounts.AddBalance, Accounts.SubBalance] at *
  by_cases hsd : src = dst
  · subst hsd
    simp only [if_true]
    refine ⟨by omega, by omega, fun h1 h2 => ⟨by omega, by omega⟩⟩
  · have hds : ¬ dst = src := fun e => hsd e.symm
    simp only [hsd, hds, if_true, if_false]
    refine ⟨by omega, by omega, fun h1 h2 => ⟨by omega, by omega⟩⟩

/-- C34 (amended) on `stdAccounts`: the transfer of 3 from account 1 to account 2. -/
theorem C34_transfer_nonneg_amount_witness :
    (0 : Int) ≤ 3 ∧ (Transfer stdAccounts 1 2 3).1 = none ∧
    (Transfer stdAccounts 1 2 3).2.Balance 1 = 7 ∧
    (Transfer stdAccounts 1 2 3).2.Balance 2 = 8 ∧
    ((Transfer stdAccounts 1 2 3).2.Balance 1 ≤ stdAccounts.Balance 1 ∧
    stdAccounts.Balance 2 ≤ (Transfer stdAccounts 1 2 3).2.Balance 2 ∧
    (0 ≤ stdAccounts.Balance 1 → 0 ≤ stdAccounts.Balance 2 →
      0 ≤ (Transfer stdAccounts 1 2 3).2.Balance 1 ∧
      0 ≤ (Transfer stdAccounts 1 2 3).2.Balance 2)) :=
  ⟨by decide, by decide, by decide, by decide,
    C34_transfer_nonneg_amount stdAccounts 1 2 3 (by decide) (by decide)⟩

/-! ## `Disassemble` -/

set_option maxRecDepth 8000 in
/-- C29 (the code at the failing input): for the script PUSH with the immediate `2^64`,
`Disassemble` emits the name of PUSH followed by the literal `0x00`, which denotes 0,
where the immediate bytes denote `2^64`, written `0x010000000000000000`. -/
theorem C29_disassemble_truncates :
    Disassemble stdOpCode opName push2p64Script = .done ["PUSH", "0x00"] ∧
    BigD ((push2p64Script.drop 1).take 32) = 2 ^ 64 ∧
    int64Of (2 ^ 64) = 0 ∧
    sprintfHex (bigBytes (2 ^ 64)) = "0x010000000000000000" :=
  ⟨by rfl, by rfl, by rfl, by rfl⟩

/-! ### The listing of a script with full immediates -/

theorem disasmLoop_succ (toOp : Nat → OpCode) (name : OpCode → String) (script : List Nat)
    (fuel pc : Nat) (asm : List String) (h : pc < script.length)
    (hfull : pc + 1 + immLen (toOp (script.getD pc 0)) ≤ script.length) :
    disasmLoop toOp name script (fuel + 1) pc asm =
      disasmLoop toOp name script fuel (pc + 1 + immLen (toOp (script.getD pc 0)))
        (asm ++ entriesOf name script (pc, toOp (script.getD pc 0))) := by
  rw [disasmLoop, if_neg (by omega)]
  dsimp only
  split
  · rename_i hop
    rw [hop] at hfull
    rw [if_neg (by simp only [immLen] at hfull; omega)]
    simp only [hop, entriesOf, isPush, immLen, literalAt, if_true, List.append_assoc,
      List.singleton_append]
  · rename_i hop
    rw [hop] at hfull
    rw [if_neg (by simp only [immLen] at hfull; omega)]
    simp only [hop, entriesOf, isPush, immLen, literalAt, if_true, List.append_assoc,
      List.singleton_append]
  · rename_i h1 h2
    have : isPush (toOp (script.getD pc 0)) = false ∧ immLen (toOp (script.getD pc 0)) = 0 := by
      cases hop : toOp (script.getD pc 0) <;> first | exact ⟨rfl, rfl⟩ | exact absurd hop h1 | exact absurd hop h2
    simp only [entriesOf, this.1, this.2]
    rfl

theorem disasmLoop_listing (toOp : Nat → OpCode) (name : OpCode → String)
    (script : List Nat) (k2 : Nat) :
    ∀ (k1 pc : Nat) (asm : List String), script.length - pc ≤ k1 → script.length - pc < k2 →
      (∀ e ∈ instructionsFrom toOp script k1 pc, e.1 + 1 + immLen e.2 ≤ script.length) →
      disasmLoop toOp name script k2 pc asm =
        .done (asm ++ (instructionsFrom toOp script k1 pc).flatMap (entriesOf name script)) := by
  induction k2 with
  | zero => intro k1 pc asm _ h2; omega
  | succ k ih =>
    intro k1 pc asm h1 h2 hfull
    by_cases hpc : pc ≥ script.length
    · rw [disasmLoop, if_pos hpc]
      cases k1 with
      | zero => simp [instructionsFrom]
      | succ k1 => simp [instructionsFrom, hpc]
    · cases k1 with
      | zero => omega
      | succ k1 =>
        rw [instructionsFrom, if_neg hpc] at hfull ⊢
        have hf := hfull _ (List.mem_cons_self _ _)
        dsimp only at hf
        rw [disasmLoop_succ toOp name script k pc asm (by omega) hf]
        rw [ih k1 _ _ (by omega) (by omega)
          (fun e he => hfull e (List.mem_cons_of_mem _ he))]
        simp [List.flatMap_cons]

theorem disasmLoop_no_push (toOp : Nat → OpCode) (name : OpCode → String)
    (script : List Nat) (hno : ∀ b ∈ script, isPush (toOp b) = false) (k : Nat) :
    ∀ (pc : Nat) (asm : List String), script.length - pc < k →
      disasmLoop toOp name script k pc asm =
        .done (asm ++ (script.drop pc).map (fun b => name (toOp b))) := by
  induction k with
  | zero => intro pc asm h; omega
  | succ k ih =>
    intro pc asm h
    by_cases hpc : pc ≥ script.length
    · rw [disasmLoop, if_pos hpc, List.drop_eq_nil_of_le hpc]
      simp
    · have hlt : pc < script.length := by omega
      have hget : script.getD pc 0 = script[pc] := by
        rw [List.getD_eq_getElem _ _ hlt]
      have hp : isPush (toOp (script.getD pc 0)) = false := by
        rw [hget]; exact hno _ (List.getElem_mem _)
      have hi : immLen (toOp (script.getD pc 0)) = 0 := by
        cases hop : toOp (script.getD pc 0) <;> first | rfl | (rw [hop] at hp; cases hp)
      rw [disasmLoop_succ toOp name script k pc asm hlt (by omega), hi,
        ih _ _ (by omega)]
      simp only [entriesOf, hp, Nat.add_zero]
      rw [List.drop_eq_getElem_cons hlt, hget]
      simp only [if_false, List.map_cons, List.append_assoc, List.singleton_append,
        Bool.false_eq_true]

theorem entries_length (name : OpCode → String) (script : List Nat)
    (l : List (Nat × OpCode)) :
    (l.flatMap (entriesOf name script)).length = l.length + l.countP (fun e => isPush e.2) := by
  induction l with
  | nil => rfl
  | cons e t ih =>
    rw [List.flatMap_cons, List.length_append, ih, List.countP_cons, List.length_cons]
    by_cases h : isPush e.2 = true
    · simp only [entriesOf, h, if_true, List.length_cons, List.length_nil]
      omega
    · simp only [entriesOf, h, if_false, List.length_cons, List.length_nil]
      simp; omega

set_option maxRecDepth 8000 in
/-- C31 (the code at the failing input): for the one-byte script PUSH, for the script ADD,
PUSH followed by 31 bytes, and for the script PUSH20 followed by 19 bytes, the slice
expression that takes the immediate reaches past the end of the script: no listing is
returned. -/
theorem C31_disassemble_short_immediate :
    Disassemble stdOpCode opName [0x50] = .outOfRange ∧
    Disassemble stdOpCode opName ([0x01, 0x50] ++ List.replicate 31 0) = .outOfRange ∧
    Disassemble stdOpCode opName ([0x80] ++ List.replicate 19 0) = .outOfRange ∧
    Disassemble stdOpCode opName ([0x01, 0x50] ++ List.replicate 32 0) =
      .done ["ADD", "PUSH", "0x00"] :=
  ⟨by rfl, by rfl, by rfl, by rfl⟩

/-- C32: for a script in which every PUSH and PUSH20 instruction has its full immediate,
the loop of `Disassemble` ends within `len(script) + 1` iterations (and with any larger
bound gives the same listing), and the listing is made of the entries of the instructions
in program order: one entry per instruction and one more per PUSH or PUSH20 instruction.
For a script without a PUSH or PUSH20 byte the listing is the list of the printed names
of the opcodes of its bytes, of length `len(script)`. -/
theorem C32_disassemble_listing (toOp : Nat → OpCode) (name : OpCode → String)
    (script : List Nat)
    (hfull : ∀ e ∈ instructions toOp script, e.1 + 1 + immLen e.2 ≤ script.length) :
    Disassemble toOp name script =
      .done ((instructions toOp script).flatMap (entriesOf name script)) ∧
    (∀ fuel, script.length < fuel →
      disasmLoop toOp name script fuel 0 [] = Disassemble toOp name script) ∧
    ((instructions toOp script).flatMap (entriesOf name script)).length =
      (instructions toOp script).length +
        (instructions toOp script).countP (fun e => isPush e.2) ∧
    ((∀ b ∈ script, isPush (toOp b) = false) →
      Disassemble toOp name script = .done (script.map fun b => name (toOp b)) ∧
      (script.map fun b => name (toOp b)).length = script.length) := by
  have h1 : ∀ fuel, script.length < fuel → disasmLoop toOp name script fuel 0 [] =
      .done ((instructions toOp script).flatMap (entriesOf name script)) := by
    intro fuel hf
    have := disasmLoop_listing toOp name script fuel script.length 0 [] (by omega)
      (by omega) hfull
    rw [this]
    rfl
  have h2 : Disassemble toOp name script =
      .done ((instructions toOp script).flatMap (entriesOf name script)) :=
    h1 (script.length + 1) (by omega)
  refine ⟨h2, fun fuel hf => by rw [h1 fuel hf, h2], entries_length name script _, ?_⟩
  intro hno
  refine ⟨?_, List.length_map _ _⟩
  have := disasmLoop_no_push toOp name script hno (script.length + 1) 0 [] (by omega)
  rw [List.drop_zero, List.nil_append] at this
  exact this

set_option maxRecDepth 8000 in
/-- C32 on the script PUSH 3, ADD (two instructions, one of them a PUSH, three entries),
with the script ADD, MUL, STOP as an example without PUSH. -/
theorem C32_disassemble_listing_witness :
    instructions stdOpCode pushAddScript = [(0, .oPUSH), (33, .oADD)] ∧
    Disassemble stdOpCode opName pushAddScript = .done ["PUSH", "0x03", "ADD"] ∧
    Disassemble stdOpCode opName [0x01, 0x02, 0x00] = .done ["ADD", "MUL", "STOP"] ∧
    (Disassemble stdOpCode opName pushAddScript =
      .done ((instructions stdOpCode pushAddScript).flatMap
        (entriesOf opName pushAddScript)) ∧
    (∀ fuel, pushAddScript.length < fuel →
      disasmLoop stdOpCode opName pushAddScript fuel 0 [] =
        Disassemble stdOpCode opName pushAddScript) ∧
    ((instructions stdOpCode pushAddScript).flatMap (entriesOf opName pushAddScript)).length =
      (instructions stdOpCode pushAddScript).length +
        (instructions stdOpCode pushAddScript).countP (fun e => isPush e.2) ∧
    ((∀ b ∈ pushAddScript, isPush (stdOpCode b) = false) →
      Disassemble stdOpCode opName pushAddScript =
        .done (pushAddScript.map fun b => opName (stdOpCode b)) ∧
      (pushAddScript.map fun b => opName (stdOpCode b)).length = pushAddScript.length)) :=
  ⟨by rfl, by rfl, by rfl,
    C32_disassemble_listing stdOpCode opName pushAddScript (by
      intro e he
      rw [show instructions stdOpCode pushAddScript = [(0, .oPUSH), (33, .oADD)] by rfl] at he
      simp only [List.mem_cons, List.mem_singleton, List.not_mem_nil, or_false] at he
      rcases he with h | h <;> subst h <;> decide)⟩

/-! ## End to end -/

/-! ### The layout of the program of the sum -/

theorem getD_of_take_drop (S : List Nat) (n b : Nat) (h : (S.drop n).take 1 = [b]) :
    S.getD n 0 = b := by
  have h1 : (S.drop n)[0]? = some b := by
    cases h' : S.drop n with
    | nil => rw [h'] at h; simp at h
    | cons x t => rw [h'] at h; simp at h; simp [h]
  rw [List.getElem?_drop] at h1
  simp only [Nat.add_zero] at h1
  rw [List.getD_eq_getElem?_getD, h1]
  rfl

theorem sumScript_layout (A B : List Nat) (hA : A.length = 32) (hB : B.length = 32)
    (S : List Nat)
    (hS : S = [0x50] ++ A ++ [0x50] ++ B ++ [0x01] ++ [0x50] ++ imm32 0 ++
      [0x55] ++ [0x50] ++ imm32 32 ++ [0x50] ++ imm32 0 ++ [0x62]) :
    S.length = 168 ∧
    S.getD 0 0 = 0x50 ∧ (S.drop 1).take 32 = A ∧
    S.getD 33 0 = 0x50 ∧ (S.drop 34).take 32 = B ∧
    S.getD 66 0 = 0x01 ∧
    S.getD 67 0 = 0x50 ∧ (S.drop 68).take 32 = imm32 0 ∧
    S.getD 100 0 = 0x55 ∧
    S.getD 101 0 = 0x50 ∧ (S.drop 102).take 32 = imm32 32 ∧
    S.getD 134 0 = 0x50 ∧ (S.drop 135).take 32 = imm32 0 ∧
    S.getD 167 0 = 0x62 := by
  subst hS
  have hdA : ∀ k, 32 ≤ k → A.drop k = [] :=
    fun k hk => List.drop_eq_nil_of_le (by omega)
  have hdB : ∀ k, 32 ≤ k → B.drop k = [] :=
    fun k hk => List.drop_eq_nil_of_le (by omega)
  have hd : ∀ (n : Nat) (b : Nat) (S : List Nat), (S.drop n).take 1 = [b] → S.getD n 0 = b :=
    fun n b S h => getD_of_take_drop S n b h
  refine ⟨?_, hd _ _ _ ?_, ?_, hd _ _ _ ?_, ?_, hd _ _ _ ?_, hd _ _ _ ?_, ?_, hd _ _ _ ?_,
    hd _ _ _ ?_, ?_, hd _ _ _ ?_, ?_, hd _ _ _ ?_⟩
  all_goals
    simp [imm32, hA, hB, hdA, hdB, List.drop_append_eq_append_drop,
      List.take_append_eq_append_take]

/-! ### Single instructions on a frame given by closure, memory, stack and pc -/

theorem runLoop_next (vm : Vm) (n : Nat) (s s' : Frame) (h : stepClosure vm s = .next s') :
    runLoop vm (n + 1) s = runLoop vm n s' := by
  rw [runLoop, h]

theorem step_push_at (vm : Vm) (s : Frame) (c : Closure) (m : Memory) (stk : Stack) (p : Int)
    (h : s.isAt c m stk p) (hop : vm.OpCode (c.Get p) = .oPUSH) (hp : 0 ≤ p)
    (himm : p.toNat + 1 + 32 ≤ c.Script.length) (hgas : 1 ≤ c.Gas)
    (hd : stk.length < Stack.maxDepth) :
    ∃ s', stepClosure vm s = .next s' ∧
      s'.isAt c m (BigD ((c.Script.drop (p.toNat + 1)).take 32) :: stk) (p + 33) := by
  obtain ⟨rfl, rfl, rfl, rfl⟩ := h
  have hp1 : (s.pc + Big1).toNat = s.pc.toNat + 1 := by unfold Big1; omega
  have hp0 : 0 ≤ s.pc + Big1 := by unfold Big1; omega
  rw [stepClosure_eq vm s .oPUSH 1 hop rfl hgas]
  unfold execOp
  dsimp only
  rw [push_ok { s with pc := s.pc + Big1, step := s.step + 1 } _ s.stack rfl hd]
  refine ⟨_, rfl, rfl, rfl, ?_, ?_⟩
  · show BigD (s.closure.Gets (s.pc + Big1) 32) :: s.stack = _
    rw [Gets_eq_take_drop s.closure _ 32 hp0 (by rw [hp1]; exact himm), hp1]
  · show s.pc + Big1 + 31 + Big1 = s.pc + 33
    unfold Big1; ring

theorem step_add_at (vm : Vm) (s : Frame) (c : Closure) (m : Memory) (x y : Int)
    (rest : Stack) (p : Int)
    (h : s.isAt c m (y :: x :: rest) p) (hop : vm.OpCode (c.Get p) = .oADD)
    (hgas : 1 ≤ c.Gas) (hd : rest.length < Stack.maxDepth) :
    ∃ s', stepClosure vm s = .next s' ∧ s'.isAt c m ((x + y) % Pow256 :: rest) (p + 1) := by
  obtain ⟨rfl, rfl, hs, rfl⟩ := h
  rw [stepClosure_eq vm s .oADD 1 hop rfl hgas]
  unfold execOp
  dsimp only
  rw [pop2_ok { s with step := s.step + 1 } _ x y rest hs, push_ok _ _ rest rfl hd]
  exact ⟨_, rfl, rfl, rfl, rfl, rfl⟩

theorem step_mstore_at (vm : Vm) (s : Frame) (c : Closure) (m : Memory) (val mStart : Int)
    (rest : Stack) (p : Int)
    (h : s.isAt c m (mStart :: val :: rest) p) (hop : vm.OpCode (c.Get p) = .oMSTORE)
    (hgas : 1 ≤ c.Gas) (ho : 0 ≤ int64Of mStart) :
    ∃ s', stepClosure vm s = .next s' ∧
      s'.isAt c ⟨writeBytes m.store (int64Of mStart).toNat 32 (BigToBytes val)⟩ rest
        (p + 1) := by
  obtain ⟨rfl, rfl, hs, rfl⟩ := h
  rw [stepClosure_eq vm s .oMSTORE 1 hop rfl hgas]
  unfold execOp
  dsimp only
  rw [pop2_ok { s with step := s.step + 1 } _ val mStart rest hs]
  dsimp only
  rw [Memory_Set_ok _ _ _ ho]
  exact ⟨_, rfl, rfl, rfl, rfl, rfl⟩

theorem step_return_at (vm : Vm) (s : Frame) (c : Closure) (m : Memory) (size offset : Int)
    (rest : Stack) (p : Int) (ret : List Nat)
    (h : s.isAt c m (offset :: size :: rest) p) (hop : vm.OpCode (c.Get p) = .oRETURN)
    (hgas : 1 ≤ c.Gas) (hget : m.Get (int64Of offset) (int64Of size) = some ret) :
    ∃ s', stepClosure vm s = .returned ret s' := by
  obtain ⟨rfl, rfl, hs, rfl⟩ := h
  rw [stepClosure_eq vm s .oRETURN 1 hop rfl hgas]
  unfold execOp
  dsimp only
  rw [pop2_ok { s with step := s.step + 1 } _ size offset rest hs]
  dsimp only
  rw [hget]
  exact ⟨_, rfl⟩

set_option maxHeartbeats 2000000 in
/-- C30: for all words `a` and `b` and gas `>= 1` (no instruction of the program costs
more than 1, and the gas is never lowered), the program PUSH `a`, PUSH `b`, ADD, PUSH 0,
MSTORE, PUSH 32, PUSH 0, RETURN returns exactly 32 bytes, the big-endian encoding of
`(a + b) mod 2^256`. -/
theorem C30_sum_returned (a b gas : Int) (ha : 0 ≤ a) (ha' : a < 2 ^ 256) (hb : 0 ≤ b)
    (hb' : b < 2 ^ 256) (hgas : 1 ≤ gas) :
    (∃ s', RunClosure stdVm (stdClosure (sumScript a b) gas) 8 =
        some (.returned (BigToBytes ((a + b) % 2 ^ 256)) s')) ∧
    (BigToBytes ((a + b) % 2 ^ 256)).length = 32 ∧
    BigD (BigToBytes ((a + b) % 2 ^ 256)) = (a + b) % 2 ^ 256 := by
  have hsum0 : 0 ≤ (a + b) % 2 ^ 256 := Int.emod_nonneg _ (ne_of_gt pow256_pos)
  have hsum1 : (a + b) % 2 ^ 256 < 2 ^ 256 := Int.emod_lt_of_pos _ pow256_pos
  have hlen := BigToBytes_length _ hsum0 hsum1
  refine ⟨?_, hlen, BigD_BigToBytes _ hsum0⟩
  obtain ⟨hL, g0, i0, g1, i1, g2, g3, i3, g4, g5, i5, g6, i6, g7⟩ :=
    sumScript_layout (BigToBytes a) (BigToBytes b) (BigToBytes_length a ha ha')
      (BigToBytes_length b hb hb') (sumScript a b) rfl
  generalize hc : stdClosure (sumScript a b) gas = c
  have hS : c.Script = sumScript a b := by rw [← hc]; rfl
  have hG : 1 ≤ c.Gas := by rw [← hc]; exact hgas
  rw [← hS] at hL g0 i0 g1 i1 g2 g3 i3 g4 g5 i5 g6 i6 g7
  have hop : ∀ (p : Nat) (byte : Nat), c.Script.getD p 0 = byte →
      stdVm.OpCode (c.Get (p : Int)) = stdOpCode byte := by
    intro p byte h
    rw [Get_of_nonneg c _ (by omega), Int.toNat_ofNat, h]
    rfl
  have i0' : BigD ((c.Script.drop 1).take 32) = a := by rw [i0]; exact BigD_BigToBytes a ha
  have i1' : BigD ((c.Script.drop 34).take 32) = b := by rw [i1]; exact BigD_BigToBytes b hb
  have i3' : BigD ((c.Script.drop 68).take 32) = 0 := by rw [i3]; rfl
  have i5' : BigD ((c.Script.drop 102).take 32) = 32 := by rw [i5]; rfl
  have i6' : BigD ((c.Script.drop 135).take 32) = 0 := by rw [i6]; rfl
  -- PUSH a
  obtain ⟨s1, e1, h1⟩ := step_push_at stdVm (initFrame c) c ⟨[]⟩ [] ((0 : Nat) : Int)
    ⟨rfl, rfl, rfl, rfl⟩ (by rw [hop 0 _ g0]; rfl) (by decide)
    (by rw [hL]; decide) hG (by decide)
  rw [show ((0 : Nat) : Int).toNat + 1 = 1 from rfl, i0'] at h1
  -- PUSH b
  obtain ⟨s2, e2, h2⟩ := step_push_at stdVm s1 c ⟨[]⟩ [a] ((33 : Nat) : Int)
    h1 (by rw [hop 33 _ g1]; rfl) (by decide) (by rw [hL]; decide) hG
    (show (1 : Nat) < 1024 by decide)
  rw [show ((33 : Nat) : Int).toNat + 1 = 34 from rfl, i1'] at h2
  -- ADD
  obtain ⟨s3, e3, h3⟩ := step_add_at stdVm s2 c ⟨[]⟩ a b [] ((66 : Nat) : Int)
    h2 (by rw [hop 66 _ g2]; rfl) hG (by decide)
  -- PUSH 0
  obtain ⟨s4, e4, h4⟩ := step_push_at stdVm s3 c ⟨[]⟩ [(a + b) % Pow256] ((67 : Nat) : Int)
    h3 (by rw [hop 67 _ g3]; rfl) (by decide) (by rw [hL]; decide) hG
    (show (1 : Nat) < 1024 by decide)
  rw [show ((67 : Nat) : Int).toNat + 1 = 68 from rfl, i3'] at h4
  -- MSTORE
  obtain ⟨s5, e5, h5⟩ := step_mstore_at stdVm s4 c ⟨[]⟩ ((a + b) % Pow256) 0 []
    ((100 : Nat) : Int) h4 (by rw [hop 100 _ g4]; rfl) hG (by decide)
  -- PUSH 32
  obtain ⟨s6, e6, h6⟩ := step_push_at stdVm s5 c _ [] ((101 : Nat) : Int)
    h5 (by rw [hop 101 _ g5]; rfl) (by decide) (by rw [hL]; decide) hG (by decide)
  rw [show ((101 : Nat) : Int).toNat + 1 = 102 from rfl, i5'] at h6
  -- PUSH 0
  obtain ⟨s7, e7, h7⟩ := step_push_at stdVm s6 c _ [32] ((134 : Nat) : Int)
    h6 (by rw [hop 134 _ g6]; rfl) (by decide) (by rw [hL]; decide) hG (by decide)
  rw [show ((134 : Nat) : Int).toNat + 1 = 135 from rfl, i6'] at h7
  -- RETURN
  obtain ⟨s8, e8⟩ := step_return_at stdVm s7 c _ 32 0 [] ((167 : Nat) : Int)
    (BigToBytes ((a + b) % 2 ^ 256)) h7 (by rw [hop 167 _ g7]; rfl) hG
    (Memory_Get_written [] (int64Of 0) _ (by decide) hlen)
  refine ⟨s8, ?_⟩
  unfold RunClosure
  rw [runLoop_next _ _ _ _ e1, runLoop_next _ _ _ _ e2, runLoop_next _ _ _ _ e3,
    runLoop_next _ _ _ _ e4, runLoop_next _ _ _ _ e5, runLoop_next _ _ _ _ e6,
    runLoop_next _ _ _ _ e7, runLoop, e8]

set_option maxRecDepth 8000 in
/-- C30 with `a = 3`, `b = 4` and gas 100: the 32 bytes returned encode 7. -/
theorem C30_sum_returned_witness :
    (1 : Int) ≤ 100 ∧ BigToBytes ((3 + 4) % 2 ^ 256) = imm32 7 ∧ BigD (imm32 7) = 7 ∧
    (∃ s', RunClosure stdVm (stdClosure (sumScript 3 4) 100) 8 =
        some (.returned (BigToBytes ((3 + 4) % 2 ^ 256)) s')) ∧
    (BigToBytes ((3 + 4) % 2 ^ 256)).length = 32 ∧
    BigD (BigToBytes ((3 + 4) % 2 ^ 256)) = (3 + 4) % 2 ^ 256 :=
  ⟨by decide, by rfl, by rfl,
    C30_sum_returned 3 4 100 (by decide) (by norm_num) (by decide) (by norm_num)
      (by decide)⟩

end Ethchain
